import Mathlib

set_option maxHeartbeats 1000000

/-!
Verification development for the blogdkr content engine.

The Go sources are shallowly embedded: pure Go functions become Lean
functions on `String` / `List String` (a file's content is represented by
its list of lines, modelling `strings.Split(content, "\n")` /
`strings.Join(lines, "\n")`), fallible code returns `Option`/`Except`,
and the in-memory maps of the content store are modelled as association
lists in a fixed order (a deterministic stand-in for Go's map iteration).
External libraries (goccy/go-yaml, BurntSushi/toml, gomarkdown,
encoding/xml, the Go standard library) are modelled on the fragment of
their behaviour that the repository exercises; each such model carries a
comment saying what it stands for.
-/

namespace Blogdkr

/-- The characters of Go's regexp `\s` class that can occur inside a single
line (a line never contains `'\n'`): space, tab, carriage return, form feed,
vertical tab is not in Go's `\s`. -/
def wsChar (c : Char) : Bool :=
  c = ' ' || c = '\t' || c = '\r' || c = Char.ofNat 12

/-- Trim `wsChar`s from both ends of a character list
(models `strings.TrimSpace` on newline-free strings). -/
def trimChars (l : List Char) : List Char :=
  ((l.dropWhile wsChar).reverse.dropWhile wsChar).reverse

/-- `strings.TrimSpace` on a single line. -/
def trimS (s : String) : String := ⟨trimChars s.data⟩

/-- A line consisting only of whitespace. -/
def isWsOnly (s : String) : Bool := s.data.all wsChar

/-- `strings.HasPrefix`. -/
def hasPrefixS (s p : String) : Bool := p.data.isPrefixOf s.data

/-- `strings.HasSuffix`. -/
def hasSuffixS (s p : String) : Bool := p.data.isSuffixOf s.data

/-- `strings.TrimPrefix`. -/
def trimPrefixS (s p : String) : String :=
  if hasPrefixS s p then ⟨s.data.drop p.data.length⟩ else s

/-- `strings.TrimSuffix`. -/
def trimSuffixS (s p : String) : String :=
  if hasSuffixS s p then ⟨s.data.take (s.data.length - p.data.length)⟩ else s

/-- `strings.Contains s sub` for a single-character `sub`. -/
def containsChar (s : String) (c : Char) : Bool := s.data.contains c

/-- `strings.Split` on a single separator character: every occurrence
separates, empty fields are kept. -/
def splitChar (sep : Char) : List Char → List (List Char)
  | [] => [[]]
  | c :: rest =>
    let r := splitChar sep rest
    if c = sep then [] :: r
    else
      match r with
      | [] => [[c]]
      | h :: t => (c :: h) :: t

/-- `strings.Split (s, "/")` as strings. -/
def splitSlash (s : String) : List String :=
  (splitChar '/' s.data).map (fun l => ⟨l⟩)

/-- `strings.Join` with a single-character separator. -/
def joinChar (sep : Char) (parts : List (List Char)) : List Char :=
  List.intercalate [sep] parts

/-! ## `path/filepath` fragment (Go standard library model)

`filepath.Match` implements shell-style globs where `*` and `?` never match
the separator `'/'`, `[...]` is a character class (ranges, `^` negation,
`\` escapes) and `\` escapes the next pattern character.  A malformed
pattern (unterminated class or trailing backslash) yields `ErrBadPattern`;
all call sites in the repository discard the error, so the model returns
`Option Bool` and call sites use `(· |>.getD false)`. -/

/-- One step of Go `filepath.Match`'s character-class scanner (`getEsc`):
read one possibly-escaped range endpoint.  `none` models `ErrBadPattern`. -/
def getEsc : List Char → Option (Char × List Char)
  | [] => none
  | '-' :: _ => none
  | ']' :: _ => none
  | '\\' :: [] => none
  | '\\' :: c :: rest => some (c, rest)
  | c :: rest => some (c, rest)

/-- Scan the body of a character class after `'['` (and after an optional
`'^'`): returns (ranges, rest) or `none` for a malformed class.  Models the
`'['` loop of Go `filepath.Match`'s chunk matcher.  `fuel` only forces
structural recursion; every call consumes at least one character, so any
fuel of at least `l.length + 1` behaves as the Go loop. -/
def classGo : Nat → List Char → List (Char × Char) → Nat → Option (List (Char × Char) × List Char)
  | 0, _, _, _ => none
  | _ + 1, [], _, _ => none
  | _ + 1, ']' :: rest, acc, _ + 1 => some (acc.reverse, rest)
  | fuel + 1, l, acc, n =>
    match getEsc l with
    | none => none
    | some (lo, rest) =>
      match rest with
      | '-' :: rest' =>
        match getEsc rest' with
        | none => none
        | some (hi, rest'') => classGo fuel rest'' ((lo, hi) :: acc) (n + 1)
      | _ => classGo fuel rest ((lo, lo) :: acc) (n + 1)

/-- Parse a character class after `'['`: returns (negated, ranges, rest) or
`none` for a malformed class. -/
def parseClass (l : List Char) : Option (Bool × List (Char × Char) × List Char) :=
  match l with
  | '^' :: rest =>
    match classGo (rest.length + 1) rest [] 0 with
    | none => none
    | some (ranges, rest') => some (true, ranges, rest')
  | _ =>
    match classGo (l.length + 1) l [] 0 with
    | none => none
    | some (ranges, rest') => some (false, ranges, rest')

/-- Does `c` match a parsed character class? -/
def classMatches (neg : Bool) (ranges : List (Char × Char)) (c : Char) : Bool :=
  let hit := ranges.any (fun r => r.1 ≤ c && c ≤ r.2)
  if neg then !hit else hit

/-- Model of Go `filepath.Match` on character lists: `none` models
`ErrBadPattern`.  `*` and `?` never match `'/'`; `\ ` escapes; `[...]` is a
character class.  `fuel` only forces structural recursion; every recursive
call strictly decreases `p.length + s.length`, so any fuel of at least
`p.length + s.length + 1` behaves as the Go function. -/
def goMatchL : Nat → List Char → List Char → Option Bool
  | 0, _, _ => none
  | _ + 1, [], [] => some true
  | _ + 1, [], _ :: _ => some false
  | fuel + 1, '*' :: p, s =>
    match goMatchL fuel p s with
    | none => none
    | some true => some true
    | some false =>
      -- backtracking arm of `*`: consume one non-separator character
      match s with
      | [] => some false
      | c :: s' => if c = '/' then some false else goMatchL fuel ('*' :: p) s'
  | _ + 1, '?' :: _, [] => some false
  | fuel + 1, '?' :: p, c :: s => if c = '/' then some false else goMatchL fuel p s
  | fuel + 1, '[' :: p, s =>
    match parseClass p with
    | none => none
    | some (neg, ranges, p') =>
      match s with
      | [] => some false
      | c :: s' => if classMatches neg ranges c then goMatchL fuel p' s' else some false
  | _ + 1, '\\' :: [], _ => none
  | fuel + 1, '\\' :: c :: p, s =>
    match s with
    | [] => some false
    | c' :: s' => if c' = c then goMatchL fuel p s' else some false
  | fuel + 1, c :: p, s =>
    match s with
    | [] => some false
    | c' :: s' => if c' = c then goMatchL fuel p s' else some false

/-- `filepath.Match pattern name` (error modelled as `none`). -/
def goMatch (pattern name : String) : Option Bool :=
  goMatchL (pattern.data.length + name.data.length + 1) pattern.data name.data

/-- `matched, _ := filepath.Match(...)`: the error is discarded. -/
def goMatchOk (pattern name : String) : Bool :=
  (goMatch pattern name).getD false

/-- `filepath.ToSlash`: on Linux the separator is already `'/'`, so this is
the identity. -/
def toSlash (s : String) : String := s

/-- `filepath.Dir` on the clean relative slash-paths the engine uses: the
part before the last `'/'`, or `"."` if there is none. -/
def pathDir (s : String) : String :=
  let parts := splitChar '/' s.data
  if parts.length ≤ 1 then "." else ⟨joinChar '/' parts.dropLast⟩

/-- `filepath.Base` on clean relative slash-paths: the part after the last
`'/'` (the whole path if there is none). -/
def pathBase (s : String) : String :=
  match (splitChar '/' s.data).getLast? with
  | some l => ⟨l⟩
  | none => s

/-- `filepath.Ext`: the suffix of the last path element starting at its
final dot, or `""`. -/
def pathExt (s : String) : String :=
  let base := (pathBase s).data
  let rev := base.reverse
  match rev.findIdx? (fun c => c = '.' || c = '/') with
  | some i => if rev.get? i = some '.' then ⟨('.' :: (rev.take i).reverse : List Char)⟩ else ""
  | none => ""

/-- `filepath.Join` of two clean relative segments (the only use sites join
a directory with a relative file name). -/
def pathJoin (a b : String) : String :=
  if a = "" then b else if b = "" then a else a ++ "/" ++ b

/-! ## `Wire.matchesPathPattern` (wire.go) -/

/-- `Wire.matchPathComponents`: recursive component-wise glob matching with
`**` backtracking, a faithful port of the Go function.  `fuel` only forces
structural recursion; every call strictly shortens the pattern list, so any
fuel of at least `patternParts.length + 1` behaves as the Go function. -/
def matchPathComponentsF : Nat → List String → List String → Bool
  | 0, _, _ => false
  | _ + 1, pathParts, [] => pathParts.isEmpty
  | _ + 1, [], patternParts =>
    patternParts.all (fun part => part = "*" || part = "**")
  | fuel + 1, p0 :: prest, currentPattern :: patRest =>
    if currentPattern = "**" then
      (List.range ((p0 :: prest).length + 1)).any
        (fun i => matchPathComponentsF fuel ((p0 :: prest).drop i) patRest)
    else if currentPattern = "*" then
      matchPathComponentsF fuel prest patRest
    else if goMatchOk currentPattern p0 then
      matchPathComponentsF fuel prest patRest
    else
      false

/-- `Wire.matchPathComponents` at sufficient fuel. -/
def matchPathComponents (pathParts patternParts : List String) : Bool :=
  matchPathComponentsF (patternParts.length + 1) pathParts patternParts

/-- `Wire.matchesPathPattern`: checks whether a file path matches a query
path pattern, a faithful port of the Go function. -/
def matchesPathPattern (filePath0 pattern0 : String) : Bool :=
  -- Normalize paths (identity on Linux) and strip a leading "./".
  let filePath := toSlash filePath0
  let pattern1 := toSlash pattern0
  let pattern := if hasPrefixS pattern1 "./" then ⟨pattern1.data.drop 2⟩ else pattern1
  -- Try direct match first using filepath.Match.
  if goMatchOk pattern filePath then true
  -- Handle directory patterns (ending with *).
  else if hasSuffixS pattern "*" &&
      hasPrefixS filePath (trimSuffixS pattern "*") then true
  else if containsChar pattern '/' then
    -- For patterns like "blog/*", match files in that directory.
    if hasSuffixS pattern "/*" then
      let dir := trimSuffixS pattern "/*"
      let fileDir := pathDir filePath
      fileDir = dir || hasPrefixS fileDir (dir ++ "/")
    -- For more complex patterns, use filepath.Match on the full path.
    else if goMatchOk pattern filePath then true
    -- Also try matching against directory components.
    else
      matchPathComponents (splitSlash filePath) (splitSlash pattern)
  else
    -- For simple patterns without slashes, match against filename only.
    goMatchOk pattern (pathBase filePath)

/-! ## Frontmatter scalar values

Go keeps frontmatter values as `interface{}`.  The repository's contract
exercises scalars (strings, booleans, integers), which we model as a tagged
value type — decoding a scalar from its YAML text and re-encoding it is
modelled by `scalarParse` / `scalarRender`. -/

/-- A dynamic frontmatter value (`interface{}` restricted to the scalar
fragment the repository exercises). -/
inductive FMValue
  | str (s : String)
  | bool (b : Bool)
  | int (n : Int)
deriving DecidableEq, Repr

/-- Is a character an ASCII digit? -/
def isDigitC (c : Char) : Bool := '0' ≤ c && c ≤ '9'

/-- Decimal digits to a natural number. -/
def digitsToNat (l : List Char) : Nat :=
  l.foldl (fun acc c => acc * 10 + (c.toNat - '0'.toNat)) 0

/-- Decimal rendering of a natural number, most significant digit first.
`fuel` only forces structural recursion (`n + 1` always suffices). -/
def natDigitsF : Nat → Nat → List Char
  | 0, _ => []
  | fuel + 1, n =>
    if n < 10 then [Char.ofNat (48 + n)]
    else natDigitsF fuel (n / 10) ++ [Char.ofNat (48 + n % 10)]

/-- Decimal rendering of a natural number. -/
def natDigits (n : Nat) : List Char := natDigitsF (n + 1) n

/-- Model of YAML scalar decoding on the trimmed text of a value: `true` /
`false` become booleans, digit strings become integers, a double-quoted
string is unquoted, anything else is a plain string. -/
def scalarParse (v : String) : FMValue :=
  if v = "true" then .bool true
  else if v = "false" then .bool false
  else if v ≠ "" && v.data.all isDigitC then .int (digitsToNat v.data)
  else if v.data.length ≥ 2 && v.data.head? = some '"' && v.data.getLast? = some '"' then
    .str ⟨(v.data.drop 1).dropLast⟩
  else .str v

/-- Model of YAML scalar encoding: the inverse of `scalarParse`; a string
whose plain spelling would decode as something else, or whose surrounding
whitespace a bare spelling would lose, is double-quoted. -/
def scalarRender (v : FMValue) : String :=
  match v with
  | .bool true => "true"
  | .bool false => "false"
  | .int n =>
    if 0 ≤ n then (⟨natDigits n.toNat⟩ : String)
    else "-" ++ (⟨natDigits (-n).toNat⟩ : String)
  | .str s =>
    if scalarParse s = .str s && trimS s = s then s else "\"" ++ s ++ "\""

/-- One `key: value` line of the YAML mapping fragment: the key is the text
before the first colon (it must be non-empty and have no surrounding
whitespace: an indented line is not a top-level mapping entry), the colon
must be followed by a space or end the line, and the value text is trimmed
then decoded as a scalar. -/
def parseYamlLine (l : String) : Option (String × FMValue) :=
  match l.data.dropWhile (fun c => c ≠ ':') with
  | [] => Option.none
  | _ :: rest =>
    let key : String := ⟨l.data.takeWhile (fun c => c ≠ ':')⟩
    if key ≠ "" && trimS key = key &&
        (rest.isEmpty || rest.head? = some ' ') then
      some (key, scalarParse (trimS ⟨rest⟩))
    else
      Option.none

/-- Decode the lines of a `---` block as a YAML mapping (the fragment of
goccy/go-yaml the repository exercises): whitespace-only lines are skipped,
every other line must be a `key: value` entry; entries are returned in
textual order (the order `yaml.MapSlice` preserves). -/
def parseYamlLines (lines : List String) : Option (List (String × FMValue)) :=
  lines.foldr
    (fun l acc =>
      match acc with
      | Option.none => Option.none
      | Option.some entries =>
        if isWsOnly l then some entries
        else
          match parseYamlLine l with
          | Option.none => Option.none
          | Option.some e => some (e :: entries))
    (some [])

/-- Encode an ordered list of entries as the lines of a YAML mapping
(model of `yaml.Marshal` on an ordered `yaml.MapSlice`). -/
def renderYamlLines (entries : List (String × FMValue)) : List String :=
  entries.map (fun e => e.1 ++ ": " ++ scalarRender e.2)

/-- One `key = "value"` line of the TOML fragment: key before the first
`'='`, trimmed; the value must be a double-quoted string without inner
quotes (the fragment the round-trip exercises). -/
def parseTomlLine (l : String) : Option (String × FMValue) :=
  match l.data.dropWhile (fun c => c ≠ '=') with
  | [] => Option.none
  | _ :: rest =>
    let key : String := ⟨trimChars (l.data.takeWhile (fun c => c ≠ '='))⟩
    let v := trimChars rest
    if key ≠ "" && v.length ≥ 2 && v.head? = some '"' && v.getLast? = some '"' &&
        ((v.drop 1).dropLast.all (fun c => c ≠ '"')) then
      some (key, .str ⟨(v.drop 1).dropLast⟩)
    else
      Option.none

/-- Decode the lines of a `+++` block as a TOML table (string-valued
fragment of BurntSushi/toml). -/
def parseTomlLines (lines : List String) : Option (List (String × FMValue)) :=
  lines.foldr
    (fun l acc =>
      match acc with
      | Option.none => Option.none
      | Option.some entries =>
        if isWsOnly l then some entries
        else
          match parseTomlLine l with
          | Option.none => Option.none
          | Option.some e => some (e :: entries))
    (some [])

/-- Association-list lookup: a read from a Go map. -/
def lookupKV (kv : List (String × FMValue)) (key : String) : Option FMValue :=
  match kv.find? (fun e => e.1 = key) with
  | Option.none => Option.none
  | Option.some e => some e.2

/-- Association-list insert-or-replace: a write to a Go map (the list order
is a deterministic stand-in for the map's unordered contents). -/
def insertKV (kv : List (String × FMValue)) (key : String) (v : FMValue) :
    List (String × FMValue) :=
  if (lookupKV kv key).isSome then
    kv.map (fun e => if e.1 = key then (key, v) else e)
  else
    kv ++ [(key, v)]

/-- A frontmatter delimiter line: the marker (`---` or `+++`) followed only
by whitespace — the `^---\s*\n` / `^\+\+\+\s*\n` regexes accept trailing
whitespace on the delimiter line. -/
def isDelimLine (d : String) (l : String) : Bool :=
  hasPrefixS l d && isWsOnly ⟨l.data.drop 3⟩

/-- The index of the closing delimiter line: the regex's lazy `(.*?)` stops
at the first delimiter line after the opening one, and the final `\n`
requires that line not to be the last line of the file (the block must be
followed by a newline). -/
def findCloseGo (d : String) : List String → Nat → Option Nat
  | [], _ => Option.none
  | [_], _ => Option.none
  | l :: rest, j => if isDelimLine d l then some j else findCloseGo d rest (j + 1)

def findClose (d : String) (lines : List String) : Option Nat :=
  findCloseGo d (lines.drop 1) 1

/-- How many whitespace-only lines after the closing delimiter are absorbed
by the closing `\s*\n` (greedy, but the match must still end on a newline,
so the final line of the file is never absorbed). -/
def swallowCount (lines : List String) (j : Nat) : Nat :=
  min ((lines.drop (j + 1)).takeWhile isWsOnly).length (lines.length - 2 - j)

/-- Well-formedness of a decoded YAML mapping entry, as guaranteed by
`parseYamlLine`: non-empty colon-free key with no surrounding whitespace,
and any integer value non-negative (the digit parser produces no sign). -/
def entryWfY (e : String × FMValue) : Prop :=
  e.1 ≠ "" ∧ trimS e.1 = e.1 ∧ (∀ c ∈ e.1.data, c ≠ ':') ∧
  ∀ n : Int, e.2 = FMValue.int n → 0 ≤ n

/-- Well-formedness of a decoded TOML entry, as guaranteed by
`parseTomlLine`: non-empty `=`-free key with no surrounding whitespace, and
a string value free of inner double quotes. -/
def entryWfT (e : String × FMValue) : Prop :=
  e.1 ≠ "" ∧ trimS e.1 = e.1 ∧ (∀ c ∈ e.1.data, c ≠ '=') ∧
  ∃ s, e.2 = FMValue.str s ∧ ∀ c ∈ s.data, c ≠ '"'

/-- No key occurs twice — the invariant of every association list standing
in for a Go map. -/
def nodupKeys (m : List (String × FMValue)) : Prop :=
  (m.map Prod.fst).Nodup

namespace CS

/-!
## The current `contentstuff` package

frontmatter.go (`FrontmatterData` with the ordered `Data : yaml.MapSlice`
backing list and the `DataKV` side map), page.go, wire.go and the query
parser.  Documents are lists of lines.
-/

/-- `FrontmatterType` (frontmatter.go). -/
inductive FrontmatterType
  | fmNone
  | fmYAML
  | fmTOML
deriving DecidableEq, Repr

/-- `FrontmatterData` (frontmatter.go): `data` models the ordered
`Data yaml.MapSlice` backing list, `dataKV` the `DataKV map[string]any`
side map (as an association list), `raw` the raw block lines.  The
`StartPos`/`EndPos` byte offsets are not modelled (no claim reads them). -/
structure FrontmatterData where
  type : FrontmatterType
  raw : List String
  data : List (String × FMValue)
  dataKV : List (String × FMValue)
deriving DecidableEq, Repr

/-- `FrontmatterData.SetRaw`: store the raw block and decode it per the
detected style.  The YAML branch unmarshals into the ordered `fm.Data`
slice only — `fm.DataKV` is left untouched, exactly as in the source.  The
TOML branch passes the slice-typed `fm.Data` to BurntSushi's
`toml.Unmarshal`, which cannot decode a TOML document (a table) into a
slice and returns an error; that library behaviour is modelled as an
unconditional error. -/
def FrontmatterData.setRaw (fm : FrontmatterData) (lines : List String) :
    Except String FrontmatterData :=
  match fm.type with
  | .fmYAML =>
    match parseYamlLines lines with
    | Option.none => .error "yaml unmarshal error"
    | Option.some entries => .ok { fm with raw := lines, data := entries }
  | .fmTOML => .error "toml: cannot decode TOML table into yaml.MapSlice"
  | .fmNone => .ok { fm with raw := lines }

/-- `FrontmatterData.GetString`: reads the `DataKV` side map and succeeds
only on a string value. -/
def FrontmatterData.getString (fm : FrontmatterData) (key : String) :
    Option String :=
  match lookupKV fm.dataKV key with
  | some (.str s) => some s
  | _ => Option.none

/-- `FrontmatterData.GetValue` (reads `DataKV`). -/
def FrontmatterData.getValue (fm : FrontmatterData) (key : String) :
    Option FMValue :=
  lookupKV fm.dataKV key

/-- `FrontmatterData.GetBool`: reads `DataKV`, succeeds only on a boolean
value, defaults to `false`. -/
def FrontmatterData.getBool (fm : FrontmatterData) (key : String) : Bool :=
  match lookupKV fm.dataKV key with
  | some (.bool b) => b
  | _ => false

/-- `FrontmatterData.HasKey` (reads `DataKV`). -/
def FrontmatterData.hasKey (fm : FrontmatterData) (key : String) : Bool :=
  (lookupKV fm.dataKV key).isSome

/-- `FrontmatterData.SetValue`: if the key is not yet in the `DataKV` side
map, append it to the ordered `Data` list (this is what preserves key
order); then write the side map.  (`SetString` is the same function.) -/
def FrontmatterData.setValue (fm : FrontmatterData) (key : String) (v : FMValue) :
    FrontmatterData :=
  let fm' :=
    if (lookupKV fm.dataKV key).isSome then fm
    else { fm with data := fm.data ++ [(key, v)] }
  { fm' with dataKV := insertKV fm'.dataKV key v }

/-- State of the `Marshal` sync loop over `fm.Data`: `arr` is the backing
array (its length never changes here — Go's in-place
`append(fm.Data[:i], fm.Data[i+1:]...)` reuses it), `dataLen` the current
length of the `fm.Data` slice view, `updated` the `updatedKeys` set. -/
structure SyncState where
  arr : List (String × FMValue)
  dataLen : Nat
  updated : List String
deriving DecidableEq, Repr

/-- One iteration of `Marshal`'s `for i, item := range fm.Data` loop.  The
`range` clause snapshots the slice length once, but element reads go
through the live backing array, so earlier in-place removals shift later
elements under the iteration.  `fm.Data[i].Value = val` and the slicing in
the removal branch panic when `i` has run past the shrunk slice; panics
are modelled as `none`. -/
def syncStep (kv : List (String × FMValue)) (i : Nat) (st : SyncState) :
    Option SyncState :=
  let item := st.arr.getD i ("", .str "")
  match lookupKV kv item.1 with
  | some v =>
    -- fm.Data[i].Value = val ; updatedKeys[key] = true
    if i < st.dataLen then
      some { st with arr := st.arr.set i (item.1, v), updated := st.updated ++ [item.1] }
    else
      Option.none
  | Option.none =>
    -- fm.Data = append(fm.Data[:i], fm.Data[i+1:]...)
    if i < st.dataLen then
      let dataPart := st.arr.take st.dataLen
      let newData := dataPart.take i ++ dataPart.drop (i + 1)
      some { st with arr := newData ++ st.arr.drop (st.dataLen - 1),
                     dataLen := st.dataLen - 1 }
    else
      Option.none

/-- Run the sync loop for the snapshotted number of iterations. -/
def syncLoop (kv : List (String × FMValue)) : Nat → Nat → SyncState → Option SyncState
  | 0, _, st => some st
  | steps + 1, i, st =>
    match syncStep kv i st with
    | Option.none => Option.none
    | Option.some st' => syncLoop kv steps (i + 1) st'

/-- `FrontmatterData.Marshal`: sync `Data` from `DataKV` (update existing
keys, remove keys gone from the map, append keys new in the map), then
serialize — always as `---`-delimited YAML, whatever `fm.Type` is.  `none`
models the out-of-range panic the sync loop can hit.  New keys are
appended in the side map's association-list order (a deterministic
stand-in for Go's randomized map iteration). -/
def FrontmatterData.marshal (fm : FrontmatterData) : Option String :=
  let n0 := fm.data.length
  match syncLoop fm.dataKV n0 0 { arr := fm.data, dataLen := n0, updated := [] } with
  | Option.none => Option.none
  | Option.some st =>
    let synced := st.arr.take st.dataLen
    let withNew := synced ++ (fm.dataKV.filter (fun e => !st.updated.contains e.1))
    let yamlLines := renderYamlLines withNew
    some ("---\n" ++ String.join (yamlLines.map (fun l => l ++ "\n")) ++ "---")

/-- `ExtractFrontmatter` (frontmatter.go) on a document given as its list
of lines: try the `---` YAML block first, then the `+++` TOML block; a
block whose contents fail to decode is an error, no block at all is
`(none, original content)`. -/
def extractFrontmatter (lines : List String) :
    Except String (Option FrontmatterData × List String) :=
  match lines.head? with
  | Option.none => .ok (Option.none, lines)
  | Option.some l0 =>
    if isDelimLine "---" l0 then
      match findClose "---" lines with
      | Option.some j =>
        let fmLines := (lines.drop 1).take (j - 1)
        let body := lines.drop (j + swallowCount lines j + 1)
        match FrontmatterData.setRaw
            { type := .fmYAML, raw := [], data := [], dataKV := [] } fmLines with
        | .error e => .error ("failed to parse YAML frontmatter: " ++ e)
        | .ok fm => .ok (some fm, body)
      | Option.none => .ok (Option.none, lines)
    else if isDelimLine "+++" l0 then
      match findClose "+++" lines with
      | Option.some j =>
        let fmLines := (lines.drop 1).take (j - 1)
        let body := lines.drop (j + swallowCount lines j + 1)
        match FrontmatterData.setRaw
            { type := .fmTOML, raw := [], data := [], dataKV := [] } fmLines with
        | .error e => .error ("failed to parse TOML frontmatter: " ++ e)
        | .ok fm => .ok (some fm, body)
      | Option.none => .ok (Option.none, lines)
    else
      .ok (Option.none, lines)

/-! ### Query language (query.go) -/

/-- `QueryType`. -/
inductive QueryType
  | posts
  | pages
  | backlinks
deriving DecidableEq, Repr

/-- `QueryType.String()`. -/
def QueryType.str : QueryType → String
  | .posts => "posts"
  | .pages => "pages"
  | .backlinks => "backlinks"

/-- `QueryFilter`. -/
structure QueryFilter where
  field : String
  operator : String
  value : String
deriving DecidableEq, Repr

/-- `QueryAST`.  `Sort`, `Order` and `MDFormat` are Go string types
(`SortType`, `SortOrder`, `FormatType`), so they are plain strings here;
the named constants are `"recent" "date" "modified" "title"`,
`"asc" "desc"`, and `"list" "table" "list-date" "detailed"`.

`includePrivate` — Modelled from the spec: the `contentstuff` package's
`QueryAST` carries an "include private" flag read by
`Wire.applyAccessControl` (spec §3, §4.5); only its reader is in the
sources at hand, so the field is modelled as a plain boolean that query
parsing leaves `false`. -/
structure QueryAST where
  type : QueryType
  path : String := ""
  sort : String := ""
  order : String := ""
  limit : Int := 0
  filters : List QueryFilter := []
  htmlTemplate : String := ""
  mdFormat : String := ""
  includePrivate : Bool := false
deriving DecidableEq, Repr

/-- `QueryXML`: the attribute record filled by `encoding/xml`; absent
attributes decode to `""`.  (`whereAttr` is the `where` attribute.) -/
structure QueryXML where
  type : String := ""
  path : String := ""
  sort : String := ""
  order : String := ""
  limit : String := ""
  htmlTemplate : String := ""
  mdFormat : String := ""
  whereAttr : String := ""
  tag : String := ""
deriving DecidableEq, Repr

/-- `strings.ToLower` (ASCII fragment). -/
def toLowerS (s : String) : String := ⟨s.data.map Char.toLower⟩

/-- `strings.Fields`: split on runs of whitespace, dropping empty fields. -/
def fieldsS (s : String) : List String :=
  ((splitChar ' ' (s.data.map (fun c => if wsChar c then ' ' else c))).filter
    (fun l => !l.isEmpty)).map (fun l => ⟨l⟩)

/-- `strings.Trim (value, "\"'")`: remove leading and trailing quote
characters. -/
def trimQuotes (s : String) : String :=
  let cut := fun (c : Char) => c = '"' || c = '\''
  ⟨((s.data.dropWhile cut).reverse.dropWhile cut).reverse⟩

/-- `strconv.Atoi`: optional sign followed by at least one digit; anything
else is an error. -/
def atoi (s : String) : Option Int :=
  match s.data with
  | [] => Option.none
  | '-' :: ds =>
    if !ds.isEmpty && ds.all isDigitC then some (-(digitsToNat ds : Int)) else Option.none
  | '+' :: ds =>
    if !ds.isEmpty && ds.all isDigitC then some (digitsToNat ds : Int) else Option.none
  | ds =>
    if ds.all isDigitC then some (digitsToNat ds : Int) else Option.none

/-- `parseWhereClause`: split on whitespace into field, operator and a
quoted-stripped value; fewer than three tokens is an error. -/
def parseWhereClause (whereClause : String) : Except String QueryFilter :=
  match fieldsS whereClause with
  | f :: op :: rest =>
    if rest.isEmpty then
      .error ("invalid where clause: " ++ whereClause)
    else
      .ok { field := f, operator := op,
            value := trimQuotes (String.intercalate " " rest) }
  | _ => .error ("invalid where clause: " ++ whereClause)

/-- The second half of `ParseQuery`: turn the decoded attribute record into
a `QueryAST`, applying the documented defaults. -/
def astFromXML (q : QueryXML) : Except String QueryAST := do
  let type ←
    match toLowerS q.type with
    | "posts" => pure QueryType.posts
    | "pages" => pure QueryType.pages
    | "backlinks" => pure QueryType.backlinks
    | _ => throw ("unknown query type: " ++ q.type)
  let sort := if q.sort ≠ "" then toLowerS q.sort else "recent"
  let order :=
    if q.order ≠ "" then toLowerS q.order
    else if sort = "recent" || sort = "date" || sort = "modified" then "desc"
    else "asc"
  let limit : Int :=
    if q.limit ≠ "" then
      match atoi q.limit with
      | some n => n
      | Option.none => 0
    else 0
  let mdFormat := if q.mdFormat ≠ "" then toLowerS q.mdFormat else "list-date"
  let filters1 ←
    if q.whereAttr ≠ "" then
      match parseWhereClause q.whereAttr with
      | .ok f => pure [f]
      | .error e => throw ("failed to parse where clause: " ++ e)
    else pure []
  let filters :=
    if q.tag ≠ "" then
      filters1 ++ [{ field := "tag", operator := "contains", value := q.tag }]
    else filters1
  pure { type := type, path := q.path, sort := sort, order := order,
         limit := limit, filters := filters, htmlTemplate := q.htmlTemplate,
         mdFormat := mdFormat }

/-- Assign one decoded attribute to the `QueryXML` record; unknown
attributes are ignored, as `encoding/xml` does. -/
def setAttr (q : QueryXML) (name value : String) : QueryXML :=
  match name with
  | "type" => { q with type := value }
  | "path" => { q with path := value }
  | "sort" => { q with sort := value }
  | "order" => { q with order := value }
  | "limit" => { q with limit := value }
  | "html-template" => { q with htmlTemplate := value }
  | "md-format" => { q with mdFormat := value }
  | "where" => { q with whereAttr := value }
  | "tag" => { q with tag := value }
  | _ => q

/-- Attribute scanner: a model of `encoding/xml` unmarshalling for a single
self-closing element with double-quoted attributes, which is the only shape
`ParseQuery` feeds it.  `fuel` only forces structural recursion (one unit
per consumed character suffices). -/
def parseAttrsF : Nat → List Char → QueryXML → Except String QueryXML
  | 0, _, _ => .error "XML syntax error"
  | _ + 1, [], _ => .error "unexpected EOF"
  | fuel + 1, cs, q =>
    let cs := cs.dropWhile wsChar
    if cs = ['/', '>'] then .ok q
    else
      let name := cs.takeWhile (fun c => c ≠ '=' && !wsChar c && c ≠ '/' && c ≠ '>')
      let rest := cs.drop name.length
      match name, rest with
      | _ :: _, '=' :: '"' :: rest' =>
        let v := rest'.takeWhile (fun c => c ≠ '"')
        let rest'' := rest'.drop v.length
        match rest'' with
        | '"' :: rest''' => parseAttrsF fuel rest''' (setAttr q ⟨name⟩ ⟨v⟩)
        | _ => .error "unterminated attribute value"
      | _, _ => .error "malformed attribute"

/-- Decode `<query ε.../>` into a `QueryXML` (model of `xml.Unmarshal`). -/
def unmarshalQueryXML (s : String) : Except String QueryXML :=
  let cs := s.data
  if hasPrefixS s "<query" then
    parseAttrsF (cs.length + 1) (cs.drop 6) {}
  else .error "expected <query element"

/-- `ParseQuery` (query.go): strip comment markers, force a self-closing
tag, decode the XML, then resolve defaults. -/
def parseQuery (queryString : String) : Except String QueryAST := do
  let s := trimS queryString
  let s := trimPrefixS s "<!--"
  let s := trimSuffixS s "-->"
  let s := trimS s
  let s :=
    if !hasSuffixS s "/>" && hasSuffixS s ">" then
      trimSuffixS s ">" ++ "/>"
    else s
  match unmarshalQueryXML s with
  | .error e => throw ("failed to parse query XML: " ++ e)
  | .ok qxml => astFromXML qxml

/-! ### Content store and pages (contentstuff.go, page.go) -/

/-- `FileType`. -/
inductive FileType
  | markdown
  | html
  | static
  | directory
deriving DecidableEq, Repr

/-- `ParsedContent` (the fields the wire and page layers read; the
extraction lists not used by any claim are omitted). -/
structure ParsedContent where
  frontmatter : Option FrontmatterData
  body : List String
  hashtags : List String
  title : String
  html : String := ""
deriving DecidableEq, Repr

/-- `FileDetail`.  `time.Time` values are modelled as `Option Int` Unix
seconds with `none` as the zero time (`LoadedAt` is read by nothing we
verify). -/
structure FileDetail where
  fileName : String
  fileType : FileType
  createdAt : Option Int := Option.none
  modifiedAt : Option Int := Option.none
  parsedContent : Option ParsedContent := Option.none
deriving DecidableEq, Repr

/-- `Page.Title` (page.go): the parsed title, overridden by a non-empty
frontmatter `title`, falling back to the file name without directory and
extension. -/
def pageTitle (fd : FileDetail) : String :=
  let t1 :=
    match fd.parsedContent with
    | some pc => if pc.title.data.length > 0 then pc.title else ""
    | Option.none => ""
  let t2 :=
    match fd.parsedContent with
    | some pc =>
      match pc.frontmatter with
      | some fm =>
        match fm.getString "title" with
        | some t => if t ≠ "" then t else t1
        | Option.none => t1
      | Option.none => t1
    | Option.none => t1
  if t2 = "" then trimSuffixS (pathBase fd.fileName) (pathExt (pathBase fd.fileName))
  else t2

/-- `Page.Slug` (page.go): frontmatter `slug` override joined onto the
file's directory, else the file name without extension. -/
def pageSlug (fd : FileDetail) : String :=
  let fmSlug :=
    match fd.parsedContent with
    | some pc =>
      match pc.frontmatter with
      | some fm =>
        match fm.getString "slug" with
        | some s => if s ≠ "" then pathJoin (pathDir fd.fileName) s else ""
        | Option.none => ""
      | Option.none => ""
    | Option.none => ""
  if fmSlug = "" then trimSuffixS fd.fileName (pathExt fd.fileName) else fmSlug

/-- `Page.Hashtags`. -/
def pageHashtags (fd : FileDetail) : List String :=
  match fd.parsedContent with
  | some pc => pc.hashtags
  | Option.none => []

/-- `timeFromMilliOrSeconds`. -/
def timeFromMilliOrSeconds (ts : Int) : Int :=
  if ts > 1000000000000 then ts / 1000 else ts

/-- `parseUnixMilliOrSeconds`: the empty string yields the zero time (which
every caller then discards), a decimal parses as milliseconds-or-seconds,
anything else is an error (also discarded by the callers); both discarded
outcomes are `none`. -/
def parseUnixMilliOrSeconds (s : String) : Option Int :=
  if s = "" then Option.none
  else
    match atoi s with
    | some n => some (timeFromMilliOrSeconds n)
    | Option.none => Option.none

/-- `Page.tryParseTimeField`: a frontmatter field as a time, trying the
string form then the integer form. -/
def tryParseTimeField (fd : FileDetail) (field : String) : Option Int :=
  match fd.parsedContent with
  | Option.none => Option.none
  | some pc =>
    match pc.frontmatter with
    | Option.none => Option.none
    | some fm =>
      if fm.hasKey field then
        match fm.getString field with
        | some s =>
          if s ≠ "" then
            match parseUnixMilliOrSeconds s with
            | some t => some t
            | Option.none => intBranch fm field
          else intBranch fm field
        | Option.none => intBranch fm field
      else Option.none
where
  /-- The `int`/`int64` type-assertion branch. -/
  intBranch (fm : FrontmatterData) (field : String) : Option Int :=
    match fm.getValue field with
    | some (.int n) => if n ≠ 0 then some (timeFromMilliOrSeconds n) else Option.none
    | _ => Option.none

/-- `Page.DateCreated`: frontmatter `created` / `_created` / `date`, then
the file's `CreatedAt`, else nil. -/
def dateCreated (fd : FileDetail) : Option Int :=
  let fmDate :=
    match fd.parsedContent with
    | some pc =>
      match pc.frontmatter with
      | some _ =>
        match tryParseTimeField fd "created" with
        | some t => some t
        | Option.none =>
          match tryParseTimeField fd "_created" with
          | some t => some t
          | Option.none => tryParseTimeField fd "date"
      | Option.none => Option.none
    | Option.none => Option.none
  match fmDate with
  | some t => some t
  | Option.none => fd.createdAt

/-- `Page.IsPrivate`: the frontmatter `private` boolean, `false` when there
is no parsed content or frontmatter. -/
def isPrivate (fd : FileDetail) : Bool :=
  match fd.parsedContent with
  | some pc =>
    match pc.frontmatter with
    | some fm => fm.getBool "private"
    | Option.none => false
  | Option.none => false

/-- `ContentStuff`: the path index and the slug index, as association lists
in a fixed order (deterministic stand-in for Go map iteration). -/
structure ContentStuff where
  fileName : List (String × FileDetail)
  slugFileMap : List (String × FileDetail) := []
deriving DecidableEq, Repr

/-- `ContentStuff.AllFiles`. -/
def ContentStuff.allFiles (c : ContentStuff) : List FileDetail :=
  c.fileName.map (·.2)

/-- `ContentStuff.DoPath`: path index first, slug index second. -/
def ContentStuff.doPath (c : ContentStuff) (p : String) : Option FileDetail :=
  match c.fileName.find? (fun e => e.1 = p) with
  | some e => some e.2
  | Option.none =>
    match c.slugFileMap.find? (fun e => e.1 = p) with
    | some e => some e.2
    | Option.none => Option.none

/-! ### The Wire engine (wire.go) -/

/-- `QueryLocation`: a located query block (inclusive sentinel lines) plus
the materialized content lines recorded at scan time. -/
structure QueryLocation where
  query : QueryAST
  startLine : Nat
  endLine : Nat
  filePath : String
  content : List String
deriving DecidableEq, Repr

/-- `Wire`: the content store plus the per-file map of query locations
(an association list standing in for the Go map). -/
structure Wire where
  content : ContentStuff
  queries : List (String × List QueryLocation)
deriving DecidableEq, Repr

/-- The file system visible to the wire: relative path to list of lines
(the `ContentDir` prefix that `filepath.Join` adds is dropped because every
access goes through the same join). -/
abbrev FS := List (String × List String)

/-- `os.ReadFile` on the modelled file system. -/
def fsRead (fs : FS) (p : String) : Option (List String) :=
  match fs.find? (fun e => e.1 = p) with
  | some e => some e.2
  | Option.none => Option.none

/-- `ContentStuff.WriteContentFile` on the modelled file system (the
side-band history write goes to the database, outside this model). -/
def fsWrite (fs : FS) (p : String) (lines : List String) : FS :=
  if (fsRead fs p).isSome then
    fs.map (fun e => if e.1 = p then (p, lines) else e)
  else
    fs ++ [(p, lines)]

/-- After the capture of `<query\s+([^>]+)`: a literal `>` followed by
`\s*-->`. -/
def queryStartTail (l : List Char) : Bool :=
  match l with
  | '>' :: t => ['-', '-', '>'].isPrefixOf (t.dropWhile wsChar)
  | _ => false

/-- Does a line match `<!--\s*<query\s+([^>]+)>\s*-->` starting exactly at
this position?  Returns the captured attribute text.  The greedy `\s+`
takes the maximal whitespace run and `([^>]+)` the rest up to `>`; when
that leaves the capture empty, the leftmost-first semantics gives one
whitespace character back to the capture. -/
def queryStartAt (cs : List Char) : Option String :=
  if ['<', '!', '-', '-'].isPrefixOf cs then
    let cs := (cs.drop 4).dropWhile wsChar
    if ['<', 'q', 'u', 'e', 'r', 'y'].isPrefixOf cs then
      match cs.drop 6 with
      | c :: rest =>
        if wsChar c then
          let wsRun := rest.takeWhile wsChar
          let afterWs := rest.drop wsRun.length
          let cap := afterWs.takeWhile (fun d => d ≠ '>')
          if !cap.isEmpty && queryStartTail (afterWs.drop cap.length) then
            some ⟨cap⟩
          else if cap.isEmpty && !wsRun.isEmpty && queryStartTail afterWs then
            some ⟨[wsRun.getLastD ' ']⟩
          else Option.none
        else Option.none
      | [] => Option.none
    else Option.none
  else Option.none

/-- Unanchored search of `queryStartRegex` in a line
(`FindStringSubmatch`): leftmost match's capture group. -/
def matchQueryStart (l : String) : Option String :=
  go l.data
where
  go : List Char → Option String
  | [] => Option.none
  | c :: rest =>
    match queryStartAt (c :: rest) with
    | some cap => some cap
    | Option.none => go rest

/-- Does `<!--\s*</query>\s*-->` match starting exactly here? -/
def queryEndAt (cs : List Char) : Bool :=
  if ['<', '!', '-', '-'].isPrefixOf cs then
    let cs := (cs.drop 4).dropWhile wsChar
    if ['<', '/', 'q', 'u', 'e', 'r', 'y', '>'].isPrefixOf cs then
      ['-', '-', '>'].isPrefixOf ((cs.drop 8).dropWhile wsChar)
    else false
  else false

/-- Unanchored `queryEndRegex.MatchString`. -/
def matchQueryEnd (l : String) : Bool :=
  go l.data
where
  go : List Char → Bool
  | [] => false
  | c :: rest => queryEndAt (c :: rest) || go rest

/-- The scan state of `extractQueriesFromContent`'s loop: the current open
block, if any (start line, raw query text, content lines so far). -/
structure ExtractState where
  acc : List QueryLocation
  cur : Option (Nat × String × List String)

/-- One line of `extractQueriesFromContent`'s loop. -/
def extractStep (filePath : String) (st : ExtractState) (i : Nat) (line : String) :
    ExtractState :=
  match matchQueryStart line with
  | some raw => { st with cur := some (i, raw, []) }
  | Option.none =>
    if matchQueryEnd line then
      match st.cur with
      | some (startLine, raw, contentLines) =>
        match parseQuery ("<query " ++ raw ++ ">") with
        | .error _ => { st with cur := Option.none }  -- skip invalid queries
        | .ok ast =>
          { acc := st.acc ++
              [{ query := ast, startLine := startLine, endLine := i,
                 filePath := filePath, content := contentLines }],
            cur := Option.none }
      | Option.none => st
    else
      match st.cur with
      | some (startLine, raw, contentLines) =>
        { st with cur := some (startLine, raw, contentLines ++ [line]) }
      | Option.none => st

/-- `Wire.extractQueriesFromContent` on a document given as lines (the Go
function always returns a nil error). -/
def extractQueriesFromContent (filePath : String) (lines : List String) :
    List QueryLocation :=
  (lines.enum.foldl
    (fun st p => extractStep filePath st p.1 p.2)
    { acc := [], cur := Option.none }).acc

/-- `Wire.extractQueriesFromFile`: read from disk, then extract;
`os.ReadFile` failure is an error. -/
def extractQueriesFromFile (fs : FS) (filePath : String) :
    Except String (List QueryLocation) :=
  match fsRead fs filePath with
  | Option.none => .error ("read error: " ++ filePath)
  | some lines => .ok (extractQueriesFromContent filePath lines)

/-- Association-list deletion (a Go map `delete`). -/
def eraseKey (m : List (String × List QueryLocation)) (k : String) :
    List (String × List QueryLocation) :=
  m.filter (fun e => e.1 ≠ k)

/-- Association-list insert-or-replace for the query map. -/
def putKey (m : List (String × List QueryLocation)) (k : String)
    (v : List QueryLocation) : List (String × List QueryLocation) :=
  if (m.find? (fun e => e.1 = k)).isSome then
    m.map (fun e => if e.1 = k then (k, v) else e)
  else
    m ++ [(k, v)]

/-- `Wire.ScanContentFileForQueries`: for a tracked markdown/html file,
re-extract its query locations and wholesale-replace (or delete) its entry
in the per-file map; other file kinds are left untouched. -/
def scanContentFileForQueries (w : Wire) (fs : FS) (filePath : String) :
    Except String Wire :=
  match w.content.doPath filePath with
  | Option.none => .error ("file not found in content store: " ++ filePath)
  | some fd =>
    if fd.fileType ≠ FileType.markdown && fd.fileType ≠ FileType.html then
      .ok w
    else
      match extractQueriesFromFile fs filePath with
      | .error e => .error ("error scanning " ++ filePath ++ ": " ++ e)
      | .ok qs =>
        if qs.length > 0 then
          .ok { w with queries := putKey w.queries filePath qs }
        else
          .ok { w with queries := eraseKey w.queries filePath }

/-- The comparator of `applySortToFiles`'s `sort.Slice` call: `less i j`. -/
def lessFiles (q : QueryAST) (a b : FileDetail) : Bool :=
  if q.sort = "date" || q.sort = "modified" || q.sort = "recent" then
    match dateCreated a, dateCreated b with
    | Option.none, Option.none => false
    | Option.none, some _ => false
    | some _, Option.none => true
    | some da, some db => if q.order = "desc" then db < da else da < db
  else if q.sort = "title" then
    if q.order = "desc" then pageTitle b < pageTitle a
    else pageTitle a < pageTitle b
  else false

/-- Insert into a sorted list under `less` (used to model `sort.Slice`). -/
def insertByLess (less : FileDetail → FileDetail → Bool) (x : FileDetail) :
    List FileDetail → List FileDetail
  | [] => [x]
  | y :: ys => if less y x then y :: insertByLess less x ys else x :: y :: ys

/-- A deterministic sort consistent with the comparator — the model of the
unstable `sort.Slice`.  (No claim depends on the order of ties, only on the
sort being a fixed function of its input.) -/
def sortByLess (less : FileDetail → FileDetail → Bool) :
    List FileDetail → List FileDetail
  | [] => []
  | x :: xs => insertByLess less x (sortByLess less xs)

/-- `Wire.applySortToFiles`. -/
def applySortToFiles (files : List FileDetail) (q : QueryAST) : List FileDetail :=
  if q.sort = "" then files else sortByLess (lessFiles q) files

/-- `Wire.applyLimitToFiles`. -/
def applyLimitToFiles (files : List FileDetail) (q : QueryAST) : List FileDetail :=
  if q.limit > 0 && (files.length : Int) > q.limit then
    files.take q.limit.toNat
  else files

/-- `Wire.fileMatchesFilter`: only the `tag` field is implemented, matching
any extracted hashtag under `contains`/`equals`; everything else fails the
filter. -/
def fileMatchesFilter (fd : FileDetail) (f : QueryFilter) : Bool :=
  if f.field = "tag" then
    (pageHashtags fd).any
      (fun tag => (f.operator = "contains" || f.operator = "equals") && tag = f.value)
  else false

/-- `Wire.applyFiltersToFiles`: a file survives when it matches every
filter. -/
def applyFiltersToFiles (files : List FileDetail) (filters : List QueryFilter) :
    List FileDetail :=
  if filters.isEmpty then files
  else files.filter (fun fd => filters.all (fileMatchesFilter fd))

/-- `Wire.applyAccessControl`: a private requesting document sees
everything; a public one sees only public posts unless the query sets the
include-private flag.  (The Go function panics on a nil context; the model
always receives the context `NotifyFileChanged` looked up.) -/
def applyAccessControl (ctx : FileDetail) (posts : List FileDetail)
    (q : QueryAST) : List FileDetail :=
  let isCtxPrivate := isPrivate ctx
  posts.foldr
    (fun post acc =>
      if isCtxPrivate then post :: acc
      else if !isPrivate post then post :: acc
      else if q.includePrivate then post :: acc
      else acc)
    []

/-- Models `time.Format("2006-01-02")` on a `time.Unix` instant: the exact
calendar rendering is irrelevant to every claim (only that it is a
function of the instant), so the model renders the Unix seconds in
decimal. -/
def formatDate (t : Int) : String := toString t

/-- `Wire.formatResults`: one or more markdown lines per file.  The date is
`page.DateCreated().Format(...)`; `DateCreated` returning nil makes that a
nil-pointer panic, modelled as an error. -/
def formatResults (files : List FileDetail) (format : String) :
    Except String (List String) :=
  files.foldlM
    (fun acc fd => do
      let title := pageTitle fd
      let slug := "/" ++ trimPrefixS (pageSlug fd) "/"
      let date ←
        match dateCreated fd with
        | some t => pure (formatDate t)
        | Option.none => throw "panic: Format called on nil *time.Time"
      let lines :=
        if format = "list" then
          ["- [" ++ title ++ "](" ++ slug ++ ")"]
        else if format = "list-date" then
          ["- " ++ date ++ " - [" ++ title ++ "](" ++ slug ++ ")"]
        else if format = "detailed" then
          ["- [" ++ title ++ "](" ++ slug ++ ")", "  Date: " ++ date] ++
          (if (pageHashtags fd).length > 0 then
            ["  Tags: " ++ String.intercalate ", " (pageHashtags fd)]
          else [])
        else if format = "table" then
          ["| " ++ title ++ " | " ++ date ++ " |"]
        else
          ["- [" ++ title ++ "](" ++ slug ++ ")"]
      pure (acc ++ lines))
    []

/-- `Wire.executePostsQuery`: candidates are the non-`index.md`
markdown/html files passing the optional path filter; then access control,
field filters, sort, limit, format. -/
def executePostsQuery (w : Wire) (ctx : FileDetail) (q : QueryAST) :
    Except String (List String) :=
  let posts := w.content.allFiles.filter
    (fun fd =>
      (fd.fileType = FileType.markdown || fd.fileType = FileType.html) &&
      !hasSuffixS fd.fileName "index.md" &&
      (q.path = "" || matchesPathPattern fd.fileName q.path))
  let allowed := applyAccessControl ctx posts q
  let filtered := applyFiltersToFiles allowed q.filters
  let sorted := applySortToFiles filtered q
  let limited := applyLimitToFiles sorted q
  formatResults limited q.mdFormat

/-- `Wire.executeQuery`: only `posts` queries are dispatched; every other
type is an "unsupported query type" error. -/
def executeQuery (w : Wire) (ctx : FileDetail) (q : QueryAST) :
    Except String (List String) :=
  match q.type with
  | QueryType.posts => executePostsQuery w ctx q
  | _ => .error ("unsupported query type: " ++ q.type.str)

/-- `Wire.updateQuery`: re-execute the query, read the file, splice the
fresh results between the recorded sentinel lines, write the file back.
`lines[:StartLine+1]` panics when the recorded start has run past the end
of the file; the panic is modelled as an error. -/
def updateQuery (w : Wire) (fileCtx : FileDetail) (loc : QueryLocation)
    (fs : FS) : Except String FS := do
  let results ← executeQuery w fileCtx loc.query
  let lines ←
    match fsRead fs loc.filePath with
    | some lines => pure lines
    | Option.none => throw ("read error: " ++ loc.filePath)
  if loc.startLine + 1 > lines.length then
    throw "panic: slice bounds out of range"
  else
    let newLines :=
      lines.take (loc.startLine + 1) ++ results ++
      (if loc.endLine < lines.length then lines.drop loc.endLine else [])
    pure (fsWrite fs loc.filePath newLines)

/-- `Wire.NotifyFileChanged`: look the file up, and if it owns query
locations re-materialize each of them in order. -/
def notifyFileChanged (w : Wire) (fs : FS) (filePath : String) :
    Except String FS := do
  match w.content.doPath filePath with
  | Option.none => throw ("file not found in content store: " ++ filePath)
  | some fileCtx =>
    match w.queries.find? (fun e => e.1 = filePath) with
    | Option.none => pure fs
    | some (_, fileQueries) =>
      fileQueries.foldlM (fun fs' loc => updateQuery w fileCtx loc fs') fs

end CS

namespace P16

/-!
## The `contentstuff` parser (parser.go, the part_016 revision)

`MarkdownParser.Parse` / `ParsedContent.ToMarkdown` with this revision's
own `FrontmatterData` (an unordered `map[string]interface{}`, modelled as
an association list with insert-or-replace, serialized in key-sorted order
— a deterministic model of the external encoders' handling of Go maps; the
claims depend only on the key set and the values). -/

/-- `FrontmatterType` (this revision's copy of the enum). -/
inductive FrontmatterType
  | fmNone
  | fmYAML
  | fmTOML
deriving DecidableEq, Repr

/-- `FrontmatterData` of the parser revision: `data` models the
`Data map[string]interface{}` field. -/
structure FrontmatterData where
  type : FrontmatterType
  raw : List String
  data : List (String × FMValue)
deriving DecidableEq, Repr

/-- Fold parsed entries into the map (later duplicates overwrite, as a Go
map assignment does). -/
def entriesToMap (entries : List (String × FMValue)) : List (String × FMValue) :=
  entries.foldl (fun m e => insertKV m e.1 e.2) []

/-- `FrontmatterData.SetRaw` of the parser revision: decode per style into
the map; both decoders work here (the target is a map, not a slice). -/
def FrontmatterData.setRaw (fm : FrontmatterData) (lines : List String) :
    Except String FrontmatterData :=
  match fm.type with
  | .fmYAML =>
    match parseYamlLines lines with
    | Option.none => .error "yaml unmarshal error"
    | Option.some entries => .ok { fm with raw := lines, data := entriesToMap entries }
  | .fmTOML =>
    match parseTomlLines lines with
    | Option.none => .error "toml unmarshal error"
    | Option.some entries => .ok { fm with raw := lines, data := entriesToMap entries }
  | .fmNone => .ok { fm with raw := lines }

/-- Insertion into a key-sorted entry list. -/
def insertSorted (e : String × FMValue) : List (String × FMValue) → List (String × FMValue)
  | [] => [e]
  | f :: fs => if f.1 ≤ e.1 then f :: insertSorted e fs else e :: f :: fs

/-- Key-sorted entry list: the deterministic order in which the external
encoders serialize a Go map. -/
def sortEntries : List (String × FMValue) → List (String × FMValue)
  | [] => []
  | e :: es => insertSorted e (sortEntries es)

/-- `k = "v"` lines of the TOML encoder (string values are quoted). -/
def renderTomlLines (entries : List (String × FMValue)) : List String :=
  entries.map (fun e =>
    e.1 ++ " = " ++
    (match e.2 with
     | .str s => "\"" ++ s ++ "\""
     | .bool true => "true"
     | .bool false => "false"
     | .int n =>
       if 0 ≤ n then (⟨natDigits n.toNat⟩ : String)
       else "-" ++ (⟨natDigits (-n).toNat⟩ : String)))

/-- `FrontmatterData.Marshal` of the parser revision, as the lines of the
produced block: `---`-fenced YAML or `+++`-fenced TOML according to the
detected style (`""`, i.e. no lines, for `FrontmatterNone`). -/
def FrontmatterData.marshalLines (fm : FrontmatterData) : List String :=
  match fm.type with
  | .fmYAML => ["---"] ++ renderYamlLines (sortEntries fm.data) ++ ["---"]
  | .fmTOML => ["+++"] ++ renderTomlLines (sortEntries fm.data) ++ ["+++"]
  | .fmNone => []

/-- `ExtractFrontmatter` of the parser revision (same block recognition as
the frontmatter codec, decoding into the map). -/
def extractFrontmatter (lines : List String) :
    Except String (Option FrontmatterData × List String) :=
  match lines.head? with
  | Option.none => .ok (Option.none, lines)
  | Option.some l0 =>
    if isDelimLine "---" l0 then
      match findClose "---" lines with
      | Option.some j =>
        let fmLines := (lines.drop 1).take (j - 1)
        let body := lines.drop (j + swallowCount lines j + 1)
        match FrontmatterData.setRaw { type := .fmYAML, raw := [], data := [] } fmLines with
        | .error e => .error ("failed to parse YAML frontmatter: " ++ e)
        | .ok fm => .ok (some fm, body)
      | Option.none => .ok (Option.none, lines)
    else if isDelimLine "+++" l0 then
      match findClose "+++" lines with
      | Option.some j =>
        let fmLines := (lines.drop 1).take (j - 1)
        let body := lines.drop (j + swallowCount lines j + 1)
        match FrontmatterData.setRaw { type := .fmTOML, raw := [], data := [] } fmLines with
        | .error e => .error ("failed to parse TOML frontmatter: " ++ e)
        | .ok fm => .ok (some fm, body)
      | Option.none => .ok (Option.none, lines)
    else
      .ok (Option.none, lines)

/-- A heading found in the body. -/
structure HeadingData where
  level : Nat
  text : String
deriving DecidableEq, Repr

/-- Models gomarkdown heading recognition on the ATX fragment: a line whose
1–6 leading `#`s are followed by a whitespace character is a heading, its
text the trimmed remainder.  (Setext headings, code fences, trailing-`#`
closing sequences and generated IDs are outside the modelled fragment.) -/
def headingOfLine (l : String) : Option HeadingData :=
  let hashes := l.data.takeWhile (fun c => c = '#')
  let n := hashes.length
  if 1 ≤ n && n ≤ 6 then
    match l.data.drop n with
    | c :: rest =>
      if wsChar c then some { level := n, text := ⟨trimChars rest⟩ }
      else Option.none
    | [] => Option.none
  else Option.none

/-- `ExtractHeadings` on the ATX fragment. -/
def extractHeadings (lines : List String) : List HeadingData :=
  lines.filterMap headingOfLine

/-- A line matching the `^#\s` regex of `RemoveFirstH1`. -/
def isH1Start (l : String) : Bool :=
  match l.data with
  | '#' :: c :: _ => wsChar c
  | _ => false

/-- `RemoveFirstH1`: drop the first line matching `^#\s` among the first
`linesToSearch` lines.  (The inner loop that was meant to also skip blank
lines after the heading increments the `range` loop's index copy, which Go
resets at the next iteration, so it never has an effect and is not part of
the model.)  The Go function returns the re-joined string; a removal that
empties the list therefore yields `""`, whose line list is `[""]`. -/
def removeFirstH1 (lines : List String) (linesToSearch : Nat) :
    List String × Bool :=
  let r := go lines 0
  (if r.1.isEmpty then [""] else r.1, r.2)
where
  go : List String → Nat → List String × Bool
  | [], _ => ([], false)
  | l :: rest, i =>
    if i < linesToSearch && isH1Start l then (rest, true)
    else
      let r := go rest (i + 1)
      (l :: r.1, r.2)

/-- `isHashtagChar` (parser.go). -/
def isHashtagChar (c : Char) : Bool :=
  ('a' ≤ c && c ≤ 'z') || ('A' ≤ c && c ≤ 'Z') ||
  ('0' ≤ c && c ≤ '9') || c = '_' || c = '-'

/-- Models the hashtag inline hook registered on `'#'`: each `#` followed
by a maximal non-empty run of hashtag characters records that run; the
parser resumes after the run (or after the `#` when the run is empty).
`fuel` only forces structural recursion (one unit per consumed character
suffices).  The "inside a link" guard and markdown block structure are
outside the modelled fragment. -/
def hashtagsF : Nat → List Char → List String
  | 0, _ => []
  | _ + 1, [] => []
  | fuel + 1, '#' :: rest =>
    let run := rest.takeWhile isHashtagChar
    if run.isEmpty then hashtagsF fuel rest
    else (⟨run⟩ : String) :: hashtagsF fuel (rest.drop run.length)
  | fuel + 1, _ :: rest => hashtagsF fuel rest

/-- Hashtags of a body, line by line in order (a hashtag never spans a
newline). -/
def extractHashtags (lines : List String) : List String :=
  lines.flatMap (fun l => hashtagsF (l.data.length + 1) l.data)

/-- `ParsedContent` of the parser revision (the fields the round-trip
reads; the image/wiki-link/shortcode/plain-text extractions are functions
of the same body and are not read by any claim). -/
structure ParsedContent where
  frontmatter : Option FrontmatterData
  body : List String
  hashtags : List String
  headings : List HeadingData
  title : String
deriving DecidableEq, Repr

/-- The frontmatter-`title` fallback of `Parse` (the branch taken when no
heading supplied a title), written out separately so the statements below
can name it. -/
def fmTitleFallback (fmOpt : Option FrontmatterData) : String :=
  match fmOpt with
  | some fm =>
    match lookupKV fm.data "title" with
    | some (FMValue.str t) => if t ≠ "" then t else ""
    | _ => ""
  | Option.none => ""

/-- `MarkdownParser.Parse` (default configuration): extract frontmatter,
record the headings of the body, strip the first leading `#`-heading of the
first five lines, resolve the title (heading first, frontmatter `title`
only when that leaves it empty), then extract hashtags from the stripped
body. -/
def parse (lines : List String) : Except String ParsedContent := do
  let (fmOpt, bodyContent) ← extractFrontmatter lines
  let headings := extractHeadings bodyContent
  let (body', h1Removed) := removeFirstH1 bodyContent 5
  let t1 :=
    if h1Removed then
      match headings.find? (fun h => h.level = 1) with
      | some h => h.text
      | Option.none => ""
    else ""
  let title :=
    if t1 = "" then
      match fmOpt with
      | some fm =>
        match lookupKV fm.data "title" with
        | some (.str t) => if t ≠ "" then t else ""
        | _ => ""
      | Option.none => ""
    else t1
  pure { frontmatter := fmOpt, body := body', hashtags := extractHashtags body',
         headings := headings, title := title }

/-- `ParsedContent.ToMarkdown`, as lines: marshalled frontmatter (when it
serializes to something), then `# Title` (or the first recorded level-1
heading when the title is empty), then the body. -/
def ParsedContent.toMarkdownLines (pc : ParsedContent) : List String :=
  let fmBlock :=
    match pc.frontmatter with
    | some fm => fm.marshalLines
    | Option.none => []
  let titlePart :=
    if pc.title ≠ "" then ["# " ++ pc.title]
    else
      match pc.headings.find? (fun h => h.level = 1) with
      | some h => ["# " ++ h.text]
      | Option.none => []
  fmBlock ++ titlePart ++ pc.body

end P16

/-! # Sample values

Concrete stores, wires and documents used by the counterexamples and
witnesses below. -/

namespace CS

/-- A sample empty content store context for counterexamples. -/
def emptyStoreFile : FileDetail :=
  { fileName := "index.md", fileType := FileType.markdown }

/-- A sample wire with one tracked file and no queries. -/
def sampleWire : Wire :=
  { content := { fileName := [("index.md", emptyStoreFile)] }, queries := [] }

/-- A `FrontmatterData` tagged as a `+++`/TOML block (built directly,
since `ExtractFrontmatter` can no longer produce one — its TOML decode
errors out). -/
def tomlTagged : FrontmatterData :=
  { type := .fmTOML, raw := ["a = \"1\""],
    data := [("a", .str "1")], dataKV := [("a", .str "1")] }

/-- A dated, public post for the materialization examples. -/
def samplePost : FileDetail :=
  { fileName := "p.md", fileType := FileType.markdown, createdAt := some 100,
    parsedContent := some { frontmatter := Option.none, body := ["body"],
                            hashtags := [], title := "P" } }

/-- An index page owning one recorded query location whose block was
scanned while still empty (no content lines between the sentinels). -/
def sampleIndex : FileDetail :=
  { fileName := "index.md", fileType := FileType.markdown, createdAt := some 100,
    parsedContent := some { frontmatter := Option.none, body := [],
                            hashtags := [], title := "Index" } }

/-- A list-format posts query (no sort, no limit). -/
def sampleListQuery : QueryAST :=
  { type := QueryType.posts, mdFormat := "list" }

/-- The wire for the materialization examples: the store tracks the index
page and one post, and the index owns one query location recorded with an
empty region (start sentinel on line 0, end sentinel on line 1). -/
def sampleWire3 : Wire :=
  { content := { fileName := [("index.md", sampleIndex), ("p.md", samplePost)] },
    queries := [("index.md",
      [{ query := sampleListQuery, startLine := 0, endLine := 1,
         filePath := "index.md", content := [] }])] }

/-- The on-disk index file as it was scanned: an empty query region. -/
def sampleFS3 : FS :=
  [("index.md", ["<!-- <query type=\"posts\" md-format=\"list\"> -->",
                 "<!-- </query> -->"])]

end CS

namespace P16

/-- A frontmatter document for the round-trip witness (one string, one
integer and one boolean value). -/
def rtDoc : List String :=
  ["---", "title: FM", "count: 3", "flag: true", "---", "# Head", "body #tag"]

/-- The frontmatter `Parse` extracts from `rtDoc`. -/
def rtFM : FrontmatterData :=
  { type := .fmYAML, raw := ["title: FM", "count: 3", "flag: true"],
    data := [("title", .str "FM"), ("count", .int 3), ("flag", .bool true)] }

/-- The parse of `rtDoc`: the heading wins the title, the body keeps its
hashtag. -/
def rtPC : ParsedContent :=
  { frontmatter := some rtFM, body := ["body #tag"], hashtags := ["tag"],
    headings := [{ level := 1, text := "Head" }], title := "Head" }

end P16

/-! # Claim theorems -/

/-- C1 — counterexample.  The spec's path-glob claim says `blog/*` must
not match the nested `blog/sub/post2.md`; `Wire.matchesPathPattern`
matches it: the trailing-`*` branch turns the pattern into the prefix
`blog/`, and the nested path carries that prefix (the dedicated `/*`
directory branch below it would match nested descendants too). -/
theorem c1_path_glob_counterexample :
    matchesPathPattern "blog/sub/post2.md" "blog/*" = true := by decide

/-- C1 (amended) — the pattern `blog/*` matches direct children of
`blog/` and also nested files at any depth (the trailing `*` acts as a
prefix match); `blog/**` likewise matches at any depth. -/
theorem c1_path_glob :
    matchesPathPattern "blog/post1.md" "blog/*" = true ∧
    matchesPathPattern "blog/sub/post2.md" "blog/*" = true ∧
    matchesPathPattern "blog/post1.md" "blog/**" = true ∧
    matchesPathPattern "blog/sub/post2.md" "blog/**" = true ∧
    matchesPathPattern "notes/other.md" "blog/*" = false := by decide

/-- C9 — counterexample.  The claim says a `pages` query yields a result
list and a `backlinks` query yields an empty result; `Wire.executeQuery`
dispatches only `posts` and fails both of them with an "unsupported query
type" error. -/
theorem c9_unsupported_counterexample :
    CS.executeQuery CS.sampleWire CS.emptyStoreFile { type := CS.QueryType.pages } =
      .error "unsupported query type: pages" ∧
    CS.executeQuery CS.sampleWire CS.emptyStoreFile { type := CS.QueryType.backlinks } =
      .error "unsupported query type: backlinks" := ⟨rfl, rfl⟩

/-- C9 (amended) — query execution handles only the `posts` type: for every
wire, requesting document and query whose type is `pages` or `backlinks`,
`executeQuery` returns an "unsupported query type" error rather than a
result list. -/
theorem c9_unsupported_query_types (w : CS.Wire) (ctx : CS.FileDetail)
    (q : CS.QueryAST) (h : q.type = CS.QueryType.pages ∨ q.type = CS.QueryType.backlinks) :
    CS.executeQuery w ctx q = .error ("unsupported query type: " ++ q.type.str) := by
  rcases h with h | h <;> simp [CS.executeQuery, h]

/-- C9 — witness for the amended theorem at a concrete pages query. -/
theorem c9_unsupported_query_types_witness :
    CS.executeQuery CS.sampleWire CS.emptyStoreFile
        { type := CS.QueryType.pages, sort := "recent" } =
      .error ("unsupported query type: " ++ CS.QueryType.pages.str) :=
  c9_unsupported_query_types CS.sampleWire CS.emptyStoreFile
    { type := CS.QueryType.pages, sort := "recent" } (Or.inl rfl)

/-- C6 — counterexample.  The claim says a `+++`-delimited (TOML) block
re-serializes with `+++` delimiters.  In the code (i) `ExtractFrontmatter`
fails on every well-formed `+++` block, because its TOML branch decodes
into the slice-typed ordered backing list, which the TOML library rejects
— so no TOML-tagged `FrontmatterData` is ever produced by detection; and
(ii) `Marshal` ignores the detected style anyway: even a directly built
TOML-tagged value serializes with `---` delimiters. -/
theorem c6_delimiter_counterexample :
    (CS.extractFrontmatter ["+++", "a = \"1\"", "+++", "body"]).isOk = false ∧
    CS.tomlTagged.marshal = some "---\na: \"1\"\n---" := ⟨rfl, rfl⟩

/-- C6 (amended) — `Marshal` always serializes as a `---`-delimited YAML
block, whatever delimiter style was detected at parse time (`---` blocks
do re-serialize with `---`; `+++` blocks cannot even be parsed, since the
TOML decode into the ordered backing list errors). -/
theorem c6_marshal_always_yaml (fm : CS.FrontmatterData) (s : String)
    (h : fm.marshal = some s) :
    ∃ t, s = "---\n" ++ t ++ "---" := by
  unfold CS.FrontmatterData.marshal at h
  simp only at h
  split at h
  · exact Option.noConfusion h
  · exact ⟨_, (Option.some.inj h).symm⟩

/-- C6 — witness: the amended theorem applied to the TOML-tagged value,
whose marshalling is computed concretely. -/
theorem c6_marshal_always_yaml_witness :
    ∃ t, "---\na: \"1\"\n---" = "---\n" ++ t ++ "---" :=
  c6_marshal_always_yaml CS.tomlTagged "---\na: \"1\"\n---" rfl

/-- C5 — the code loses the key order the claim (and the spec, and the
package's own `frontmatter_test.go`) promise.  `SetRaw` decodes a parsed
block only into the ordered `Data` list and never fills the `DataKV` side
map (`TestFrontmatterParsing` asserts `len(fm.DataKV) == 1` after an
extraction, which this code fails).  Consequently, for frontmatter parsed
with keys `[a, b, c]`, `SetValue("b", …)` finds `b` absent from `DataKV`
and appends a duplicate to `Data`, and `Marshal`'s sync loop then removes
`a` and `c` (absent from `DataKV`) by in-place slice surgery under a live
`range` — after the two removals the loop's third iteration indexes past
the shrunk slice and panics (modelled as `none`) instead of serializing
`[a, b, c]`. -/
theorem c5_order_preservation_panics :
    CS.extractFrontmatter ["---", "a: 1", "b: 2", "c: 3", "---", ""] =
      .ok (some { type := .fmYAML, raw := ["a: 1", "b: 2", "c: 3"],
                  data := [("a", .int 1), ("b", .int 2), ("c", .int 3)],
                  dataKV := [] }, [""]) ∧
    (({ type := .fmYAML, raw := ["a: 1", "b: 2", "c: 3"],
        data := [("a", .int 1), ("b", .int 2), ("c", .int 3)],
        dataKV := [] } : CS.FrontmatterData).setValue "b" (.int 9)).marshal =
      Option.none := ⟨rfl, rfl⟩

/-- C4 — access-control filtering: a private requesting document passes
every candidate through; a public requesting document keeps exactly the
candidates that are public or allowed by the query's include-private
flag. -/
theorem c4_access_control (ctx : CS.FileDetail) (posts : List CS.FileDetail)
    (q : CS.QueryAST) :
    CS.applyAccessControl ctx posts q =
      if CS.isPrivate ctx then posts
      else posts.filter (fun p => !CS.isPrivate p || q.includePrivate) := by
  induction posts with
  | nil => cases h : CS.isPrivate ctx <;> simp [CS.applyAccessControl, h]
  | cons p ps ih =>
    cases h : CS.isPrivate ctx <;>
      cases hp : CS.isPrivate p <;>
        cases hq : q.includePrivate <;>
          simp_all [CS.applyAccessControl, h, hp, hq]

/-- C8 — query default resolution: `<query type="posts">` parses to sort
`recent`, order `desc`, the list-with-date format and limit 0; in general
the order defaults to `desc` exactly when the resolved sort is one of the
time-based sorts and to `asc` otherwise, and a non-numeric limit attribute
is silently ignored, leaving the limit 0. -/
theorem c8_query_defaults :
    CS.parseQuery "<query type=\"posts\">" =
      .ok { type := CS.QueryType.posts, sort := "recent", order := "desc",
            limit := 0, mdFormat := "list-date" } ∧
    (∀ qx q, CS.astFromXML qx = .ok q → qx.order = "" →
      q.order = (if q.sort = "recent" ∨ q.sort = "date" ∨ q.sort = "modified"
                 then "desc" else "asc")) ∧
    (∀ qx q, CS.astFromXML qx = .ok q → qx.limit ≠ "" →
      CS.atoi qx.limit = Option.none → q.limit = 0) := by
  refine ⟨rfl, ?_, ?_⟩
  · intro qx q hok hord
    unfold CS.astFromXML at hok
    simp only [bind, Except.bind, pure, Except.pure, hord] at hok
    repeat' split at hok
    all_goals first
      | exact Except.noConfusion hok
      | (cases hok
         simp only []
         split <;> simp_all [Bool.or_eq_true, decide_eq_true_eq])
  · intro qx q hok hlim hatoi
    unfold CS.astFromXML at hok
    simp only [bind, Except.bind, pure, Except.pure, hlim, hatoi] at hok
    repeat' split at hok
    all_goals first
      | exact Except.noConfusion hok
      | (cases hok; simp_all)

/-- C8 — witness: the defaults theorem applied to the concrete attribute
record `type="posts" limit="abc"` (no order attribute, non-numeric limit). -/
theorem c8_query_defaults_witness :
    (let q : CS.QueryAST :=
      { type := CS.QueryType.posts, sort := "recent", order := "desc",
        limit := 0, mdFormat := "list-date" }
     q.order = (if q.sort = "recent" ∨ q.sort = "date" ∨ q.sort = "modified"
                then "desc" else "asc") ∧ q.limit = 0) := by
  refine ⟨c8_query_defaults.2.1 { type := "posts", limit := "abc" } _ rfl rfl,
         c8_query_defaults.2.2 { type := "posts", limit := "abc" } _ rfl
           (by decide) rfl⟩

namespace CS

/-- Replacing the value at a key leaves the first hit at that key holding
the new value. -/
theorem find_map_replace {β : Type} (m : List (String × β)) (k : String)
    (v : β) :
    ((m.map (fun e => if e.1 = k then (k, v) else e)).find? (fun e => e.1 = k)) =
      ((m.find? (fun e => e.1 = k)).map (fun _ => (k, v))) := by
  induction m with
  | nil => rfl
  | cons e es ih =>
    by_cases he : e.1 = k
    · simp [List.find?, he]
    · simp [List.find?, he, ih]

/-- After `putKey` the key is present. -/
theorem find_putKey_self (m : List (String × List QueryLocation)) (k : String)
    (v : List QueryLocation) :
    ((putKey m k v).find? (fun e => e.1 = k)).isSome = true := by
  unfold putKey
  split
  · rename_i h
    rw [find_map_replace]
    cases hm : m.find? (fun e => e.1 = k) with
    | none => rw [hm] at h; simp at h
    | some e => simp
  · rw [List.find?_append]
    cases hm : m.find? (fun e => e.1 = k) <;> simp [List.find?]

/-- After `eraseKey` the key is absent. -/
theorem find_eraseKey_self (m : List (String × List QueryLocation)) (k : String) :
    (eraseKey m k).find? (fun e => e.1 = k) = Option.none := by
  unfold eraseKey
  induction m with
  | nil => rfl
  | cons e es ih =>
    by_cases he : e.1 = k
    · simp [List.filter, he, ih]
    · simp [List.filter, he, List.find?, ih]

/-- A line that matches no end sentinel leaves the accumulated locations of
one extraction step unchanged. -/
theorem extractStep_acc_of_no_end (path : String) (st : ExtractState) (i : Nat)
    (l : String) (h : matchQueryEnd l = false) :
    (extractStep path st i l).acc = st.acc := by
  unfold extractStep
  split
  · rfl
  · rw [h]
    simp only [Bool.false_eq_true, if_false]
    split <;> rfl

/-- Folding extraction steps over lines without end sentinels accumulates
nothing. -/
theorem extract_fold_acc_of_no_end (path : String) :
    ∀ (ps : List (Nat × String)) (st : ExtractState),
    (∀ p ∈ ps, matchQueryEnd p.2 = false) →
    (ps.foldl (fun st p => extractStep path st p.1 p.2) st).acc = st.acc := by
  intro ps
  induction ps with
  | nil => intro st _; rfl
  | cons p ps ih =>
    intro st h
    rw [List.foldl_cons, ih _ (fun q hq => h q (List.mem_cons_of_mem p hq))]
    exact extractStep_acc_of_no_end path st p.1 p.2 (h p (List.mem_cons_self p ps))

/-- `fsRead` after `fsWrite` of the same path sees the written lines. -/
theorem fsRead_fsWrite_self (fs : FS) (p : String) (v : List String) :
    fsRead (fsWrite fs p v) p = some v := by
  unfold fsWrite
  split
  · unfold fsRead
    rw [find_map_replace]
    rename_i h
    unfold fsRead at h
    cases hm : fs.find? (fun e => e.1 = p) with
    | none => rw [hm] at h; simp at h
    | some e => simp
  · unfold fsRead
    rw [List.find?_append]
    rename_i h
    unfold fsRead at h
    cases hm : fs.find? (fun e => e.1 = p) with
    | none => simp [List.find?]
    | some e => rw [hm] at h; simp at h

/-- Writing the same lines twice to the same path is one write. -/
theorem fsWrite_fsWrite_self (fs : FS) (p : String) (v : List String) :
    fsWrite (fsWrite fs p v) p v = fsWrite fs p v := by
  have hmap : ∀ (l : List (String × List String)),
      (l.map (fun e => if e.1 = p then (p, v) else e)).map
        (fun e => if e.1 = p then (p, v) else e) =
      l.map (fun e => if e.1 = p then (p, v) else e) := by
    intro l
    rw [List.map_map]
    apply List.map_congr_left
    intro e _
    by_cases he : e.1 = p <;> simp [he]
  conv_lhs => rw [fsWrite]
  rw [fsRead_fsWrite_self]
  simp only [Option.isSome_some, if_true]
  unfold fsWrite
  split
  · exact hmap fs
  · rename_i h
    have hnone : fs.find? (fun e => e.1 = p) = Option.none := by
      unfold fsRead at h
      cases hm : fs.find? (fun e => e.1 = p) with
      | none => rfl
      | some e => rw [hm] at h; simp at h
    have hfs : fs.map (fun e => if e.1 = p then (p, v) else e) = fs := by
      have hid : fs.map (fun e => if e.1 = p then (p, v) else e) = fs.map id := by
        apply List.map_congr_left
        intro e he
        have hne : ¬(e.1 = p) := by
          have := List.find?_eq_none.mp hnone e he
          simpa using this
        simp [hne]
      rw [hid, List.map_id]
    rw [List.map_append, hfs]
    simp

/-- Splicing the same replacement lines into the same sentinel region a
second time reproduces the first splice, provided the replacement has
exactly the length of the region (`endLine - startLine - 1`), so that the
recorded line numbers still describe the spliced file. -/
theorem splice_idem (lines nl rs : List String) (s e : Nat)
    (hse : s < e) (hel : e ≤ lines.length) (hlen : rs.length = e - s - 1)
    (hnl : nl = lines.take (s + 1) ++ rs ++ (if e < lines.length then lines.drop e else [])) :
    nl.length = lines.length ∧
    nl.take (s + 1) ++ rs ++ (if e < nl.length then nl.drop e else []) = nl := by
  have hA : (lines.take (s + 1)).length = s + 1 := by
    rw [List.length_take]; omega
  have hAR : ((lines.take (s + 1) ++ rs)).length = e := by
    rw [List.length_append, hA]; omega
  have hD : (if e < lines.length then lines.drop e else []).length = lines.length - e := by
    split
    · rw [List.length_drop]
    · simp; omega
  have hNL : nl.length = lines.length := by
    rw [hnl]
    simp only [List.length_append, hA, hD, hlen]
    omega
  have htake : nl.take (s + 1) = lines.take (s + 1) := by
    rw [hnl, List.append_assoc]
    exact List.take_left' hA
  have hdrop : nl.drop e = (if e < lines.length then lines.drop e else []) := by
    rw [hnl]
    exact List.drop_left' hAR
  refine ⟨hNL, ?_⟩
  rw [htake, hNL, hdrop, hnl]
  by_cases hcase : e < lines.length
  · rw [if_pos hcase]
  · rw [if_neg hcase, if_neg hcase]

/-- The second component of an `enumFrom` element is an element of the
underlying list. -/
theorem snd_mem_of_mem_enumFrom :
    ∀ (l : List String) (n : Nat) (p : Nat × String),
    p ∈ List.enumFrom n l → p.2 ∈ l := by
  intro l
  induction l with
  | nil => intro n p h; simp [List.enumFrom] at h
  | cons x xs ih =>
    intro n p h
    rw [List.enumFrom] at h
    rcases List.mem_cons.mp h with h | h
    · subst h; exact List.mem_cons_self x xs
    · exact List.mem_cons_of_mem x (ih (n + 1) p h)

end CS

/-- C10 — the scan/query-map invariant: after a successful
`ScanContentFileForQueries` on a tracked markdown/html file, the per-file
query map has an entry for the file iff its current content yields at
least one extracted query location (a start/end sentinel pair with a
parseable query) — in particular a stale entry is deleted when the file no
longer yields one; and a document without any end sentinel line yields no
location at all (an unmatched start sentinel records nothing). -/
theorem c10_scan_invariant :
    (∀ (w : CS.Wire) (fs : CS.FS) (path : String) (fd : CS.FileDetail)
       (lines : List String) (w' : CS.Wire),
       w.content.doPath path = some fd →
       (fd.fileType = CS.FileType.markdown ∨ fd.fileType = CS.FileType.html) →
       CS.fsRead fs path = some lines →
       CS.scanContentFileForQueries w fs path = .ok w' →
       ((w'.queries.find? (fun e => e.1 = path)).isSome ↔
         CS.extractQueriesFromContent path lines ≠ [])) ∧
    (∀ (path : String) (lines : List String),
       (∀ l ∈ lines, CS.matchQueryEnd l = false) →
       CS.extractQueriesFromContent path lines = []) := by
  constructor
  · intro w fs path fd lines w' hdo hty hread hscan
    unfold CS.scanContentFileForQueries at hscan
    rw [hdo] at hscan
    have hcondb : (decide (fd.fileType ≠ CS.FileType.markdown) &&
        decide (fd.fileType ≠ CS.FileType.html)) = false := by
      rcases hty with h | h <;> simp [h]
    unfold CS.extractQueriesFromFile at hscan
    rw [hread] at hscan
    simp only [hcondb, Bool.false_eq_true, if_false] at hscan
    by_cases hq : CS.extractQueriesFromContent path lines = []
    · rw [hq] at hscan
      simp only [List.length_nil, gt_iff_lt, Nat.lt_irrefl, if_false] at hscan
      cases hscan
      simp [CS.find_eraseKey_self, hq]
    · have hpos : (CS.extractQueriesFromContent path lines).length > 0 :=
        List.length_pos.mpr hq
      rw [if_pos hpos] at hscan
      cases hscan
      simp [CS.find_putKey_self, hq]
  · intro path lines h
    unfold CS.extractQueriesFromContent
    rw [CS.extract_fold_acc_of_no_end]
    intro p hp
    exact h p.2 (CS.snd_mem_of_mem_enumFrom lines 0 p hp)

/-- C10 — witness: a concrete rescan of a tracked file whose content has a
start sentinel but no end sentinel deletes the stale entry recorded for it
(both sides of the invariant's iff become false), and such content indeed
yields no location. -/
theorem c10_scan_invariant_witness :
    ((({ content := { fileName := [("index.md", CS.emptyStoreFile)] },
         queries := [] } : CS.Wire).queries.find?
        (fun e => e.1 = "index.md")).isSome ↔
      CS.extractQueriesFromContent "index.md"
        ["<!-- <query type=\"posts\"> -->", "- old line"] ≠ []) ∧
    CS.extractQueriesFromContent "index.md"
      ["<!-- <query type=\"posts\"> -->", "- old line"] = [] :=
  ⟨c10_scan_invariant.1
     { content := { fileName := [("index.md", CS.emptyStoreFile)] },
       queries := [("index.md", [])] }
     [("index.md", ["<!-- <query type=\"posts\"> -->", "- old line"])]
     "index.md" CS.emptyStoreFile
     ["<!-- <query type=\"posts\"> -->", "- old line"]
     { content := { fileName := [("index.md", CS.emptyStoreFile)] },
       queries := [] }
     rfl (Or.inl rfl) rfl rfl,
   c10_scan_invariant.2 "index.md"
     ["<!-- <query type=\"posts\"> -->", "- old line"] (by decide)⟩

/-- C3 — counterexample.  The query materializes one line into a region
recorded with zero content lines, so the recorded end-line goes stale
after the first write: the first `NotifyFileChanged` yields the correct
three-line file, the second splices at the stale line numbers and
duplicates the result line — the two writes are not byte-identical. -/
theorem c3_idempotence_counterexample :
    CS.notifyFileChanged CS.sampleWire3 CS.sampleFS3 "index.md" =
      .ok [("index.md", ["<!-- <query type=\"posts\" md-format=\"list\"> -->",
                         "- [P](/p)",
                         "<!-- </query> -->"])] ∧
    CS.notifyFileChanged CS.sampleWire3
        [("index.md", ["<!-- <query type=\"posts\" md-format=\"list\"> -->",
                       "- [P](/p)",
                       "<!-- </query> -->"])] "index.md" =
      .ok [("index.md", ["<!-- <query type=\"posts\" md-format=\"list\"> -->",
                         "- [P](/p)",
                         "- [P](/p)",
                         "<!-- </query> -->"])] ∧
    (["<!-- <query type=\"posts\" md-format=\"list\"> -->",
      "- [P](/p)",
      "<!-- </query> -->"] : List String) ≠
    ["<!-- <query type=\"posts\" md-format=\"list\"> -->",
     "- [P](/p)",
     "- [P](/p)",
     "<!-- </query> -->"] := ⟨rfl, rfl, by decide⟩

/-- C3 (amended) — materialization is idempotent exactly in the
already-materialized state: for a file owning a single query location
whose freshly formatted results have the recorded region's line count
(`endLine - startLine - 1`), running `NotifyFileChanged` twice writes
byte-identical content (the second run reproduces the first run's file
system); when the counts differ, the recorded line numbers go stale after
the first write and the second write differs. -/
theorem c3_materialization_idempotent
    (w : CS.Wire) (fs : CS.FS) (path : String) (fd : CS.FileDetail)
    (loc : CS.QueryLocation) (rs lines : List String)
    (hdo : w.content.doPath path = some fd)
    (hq : w.queries.find? (fun e => e.1 = path) = some (path, [loc]))
    (hex : CS.executeQuery w fd loc.query = .ok rs)
    (hread : CS.fsRead fs loc.filePath = some lines)
    (hlen : rs.length = loc.endLine - loc.startLine - 1)
    (hse : loc.startLine < loc.endLine)
    (hel : loc.endLine ≤ lines.length) :
    ∃ fs1, CS.notifyFileChanged w fs path = .ok fs1 ∧
           CS.notifyFileChanged w fs1 path = .ok fs1 := by
  have hb1 : ¬(loc.startLine + 1 > lines.length) := by omega
  obtain ⟨hNL, hidem⟩ := CS.splice_idem lines
    (lines.take (loc.startLine + 1) ++ rs ++
      (if loc.endLine < lines.length then lines.drop loc.endLine else []))
    rs loc.startLine loc.endLine hse hel hlen rfl
  have hb2 : ¬(loc.startLine + 1 >
      (lines.take (loc.startLine + 1) ++ rs ++
        (if loc.endLine < lines.length then lines.drop loc.endLine else [])).length) := by
    rw [hNL]; omega
  refine ⟨CS.fsWrite fs loc.filePath
    (lines.take (loc.startLine + 1) ++ rs ++
      (if loc.endLine < lines.length then lines.drop loc.endLine else [])), ?_, ?_⟩
  · unfold CS.notifyFileChanged
    rw [hdo, hq]
    simp only [List.foldlM, bind, Except.bind]
    unfold CS.updateQuery
    rw [hex, hread]
    simp only [bind, Except.bind, pure, Except.pure, if_neg hb1]
  · unfold CS.notifyFileChanged
    rw [hdo, hq]
    simp only [List.foldlM, bind, Except.bind]
    unfold CS.updateQuery
    rw [hex, CS.fsRead_fsWrite_self]
    simp only [bind, Except.bind, pure, Except.pure, if_neg hb2]
    rw [hidem, CS.fsWrite_fsWrite_self]

/-- C3 — witness: the amended theorem at the already-materialized index
file (the one the counterexample's first run produced, rescanned so the
recorded region holds the one materialized line). -/
theorem c3_materialization_idempotent_witness :
    ∃ fs1,
      CS.notifyFileChanged
        { content := { fileName := [("index.md", CS.sampleIndex), ("p.md", CS.samplePost)] },
          queries := [("index.md",
            [{ query := CS.sampleListQuery, startLine := 0, endLine := 2,
               filePath := "index.md", content := ["- [P](/p)"] }])] }
        [("index.md", ["<!-- <query type=\"posts\" md-format=\"list\"> -->",
                       "- [P](/p)",
                       "<!-- </query> -->"])] "index.md" = .ok fs1 ∧
      CS.notifyFileChanged
        { content := { fileName := [("index.md", CS.sampleIndex), ("p.md", CS.samplePost)] },
          queries := [("index.md",
            [{ query := CS.sampleListQuery, startLine := 0, endLine := 2,
               filePath := "index.md", content := ["- [P](/p)"] }])] }
        fs1 "index.md" = .ok fs1 :=
  c3_materialization_idempotent
    { content := { fileName := [("index.md", CS.sampleIndex), ("p.md", CS.samplePost)] },
      queries := [("index.md",
        [{ query := CS.sampleListQuery, startLine := 0, endLine := 2,
           filePath := "index.md", content := ["- [P](/p)"] }])] }
    [("index.md", ["<!-- <query type=\"posts\" md-format=\"list\"> -->",
                   "- [P](/p)",
                   "<!-- </query> -->"])]
    "index.md" CS.sampleIndex
    { query := CS.sampleListQuery, startLine := 0, endLine := 2,
      filePath := "index.md", content := ["- [P](/p)"] }
    ["- [P](/p)"]
    ["<!-- <query type=\"posts\" md-format=\"list\"> -->",
     "- [P](/p)",
     "<!-- </query> -->"]
    rfl rfl rfl rfl rfl (by decide) (by decide)

/-- C7 — counterexample.  The claim says the frontmatter `title` always
overrides the heading-derived title in `Parse`; in the code the removed
leading H1 wins and the frontmatter `title` is consulted only when the
heading-derived title is empty (the package's own `TestFrontmatterYAML`
asserts exactly this: frontmatter title "Test Post", body heading "Hello
World", expected parsed title "Hello World"). -/
theorem c7_title_counterexample :
    P16.parse ["---", "title: FM", "---", "# Head", "x"] =
      .ok { frontmatter := some { type := .fmYAML, raw := ["title: FM"],
                                  data := [("title", FMValue.str "FM")] },
            body := ["x"], hashtags := [],
            headings := [{ level := 1, text := "Head" }],
            title := "Head" } ∧
    ("Head" : String) ≠ "FM" := ⟨rfl, by decide⟩

/-- C7 (amended) — title precedence in `Parse`: when a leading `#`-heading
was removed and the first recorded level-1 heading has non-empty text,
that text is the parsed title, whatever the frontmatter `title` says; the
non-empty frontmatter `title` becomes the parsed title only when the
heading-derived title is empty. -/
theorem c7_title_precedence :
    (∀ (lines : List String) (fmOpt : Option P16.FrontmatterData)
       (body : List String) (pc : P16.ParsedContent) (h : P16.HeadingData),
       P16.extractFrontmatter lines = .ok (fmOpt, body) →
       P16.parse lines = .ok pc →
       (P16.removeFirstH1 body 5).2 = true →
       (P16.extractHeadings body).find? (fun x => x.level = 1) = some h →
       h.text ≠ "" →
       pc.title = h.text) ∧
    (∀ (lines : List String) (fm : P16.FrontmatterData)
       (body : List String) (pc : P16.ParsedContent) (t : String),
       P16.extractFrontmatter lines = .ok (some fm, body) →
       P16.parse lines = .ok pc →
       ((P16.removeFirstH1 body 5).2 = true →
         ∀ h, (P16.extractHeadings body).find? (fun x => x.level = 1) = some h →
           h.text = "") →
       lookupKV fm.data "title" = some (.str t) →
       t ≠ "" →
       pc.title = t) := by
  constructor
  · intro lines fmOpt body pc h hex hp hrem hfind htext
    unfold P16.parse at hp
    rw [hex] at hp
    simp only [bind, Except.bind, pure, Except.pure] at hp
    cases hrr : P16.removeFirstH1 body 5 with
    | mk body' rem =>
      rw [hrr] at hp hrem
      simp only at hrem
      subst hrem
      simp only [if_true, hfind] at hp
      rw [if_neg htext] at hp
      cases hp
      rfl
  · intro lines fm body pc t hex hp hderived hlook htne
    unfold P16.parse at hp
    rw [hex] at hp
    simp only [bind, Except.bind, pure, Except.pure] at hp
    cases hrr : P16.removeFirstH1 body 5 with
    | mk body' rem =>
      rw [hrr] at hp hderived
      simp only at hderived
      have ht1 : (if rem = true then
          (match (P16.extractHeadings body).find? (fun x => x.level = 1) with
           | some h => h.text
           | Option.none => "") else "") = "" := by
        cases rem with
        | false => simp
        | true =>
          simp only [if_true]
          cases hf : (P16.extractHeadings body).find? (fun x => x.level = 1) with
          | none => rfl
          | some h => exact hderived rfl h hf
      rw [ht1] at hp
      rw [hlook] at hp
      dsimp only at hp
      rw [if_pos htne] at hp
      cases hp
      rfl

/-- C7 — witness: both precedence arms at concrete documents — the
counterexample document for the heading arm, and a document whose heading
lies beyond the five scanned lines for the frontmatter arm. -/
theorem c7_title_precedence_witness :
    (match P16.parse ["---", "title: FM", "---", "# Head", "x"] with
     | .ok pc => pc.title
     | .error _ => "") = "Head" ∧
    (match P16.parse ["---", "title: FM", "---", "x"] with
     | .ok pc => pc.title
     | .error _ => "") = "FM" := by
  constructor
  · exact c7_title_precedence.1 ["---", "title: FM", "---", "# Head", "x"]
      (some { type := .fmYAML, raw := ["title: FM"],
              data := [("title", FMValue.str "FM")] })
      ["# Head", "x"] _ { level := 1, text := "Head" } rfl rfl rfl rfl
      (by decide)
  · exact c7_title_precedence.2 ["---", "title: FM", "---", "x"]
      { type := .fmYAML, raw := ["title: FM"],
        data := [("title", FMValue.str "FM")] }
      ["x"] _ "FM" rfl rfl (by intro hc; exact absurd hc (by decide)) rfl
      (by decide)

/-! ## Round-trip development: character and trimming facts -/

theorem mem_of_head? {α : Type} {l : List α} {c : α} (h : l.head? = some c) :
    c ∈ l := by
  cases l with
  | nil => simp at h
  | cons a t =>
    simp at h
    subst h
    exact List.mem_cons_self _ _

theorem wsChar_cases (c : Char) (h : wsChar c = true) :
    c = ' ' ∨ c = '\t' ∨ c = '\r' ∨ c = Char.ofNat 12 := by
  have h2 := h
  simp only [wsChar, Bool.or_eq_true, decide_eq_true_eq] at h2
  tauto

theorem not_ws_of_digit (c : Char) (h : isDigitC c = true) : wsChar c = false := by
  by_contra hw
  rw [Bool.not_eq_false] at hw
  rcases wsChar_cases c hw with h1 | h1 | h1 | h1 <;> subst h1 <;>
    exact absurd h (by decide)

theorem dropWhile_head_not {α : Type} {p : α → Bool} :
    ∀ (l : List α) (c : α), (l.dropWhile p).head? = some c → p c = false := by
  intro l
  induction l with
  | nil => intro c h; simp [List.dropWhile] at h
  | cons a t ih =>
    intro c h
    rw [List.dropWhile_cons] at h
    by_cases hp : p a = true
    · rw [if_pos hp] at h; exact ih c h
    · rw [if_neg hp] at h
      simp at h
      subst h
      simpa using hp

theorem dropWhile_eq_self_of_head {p : Char → Bool} (l : List Char)
    (h : ∀ c, l.head? = some c → p c = false) : l.dropWhile p = l := by
  cases l with
  | nil => rfl
  | cons a t =>
    rw [List.dropWhile_cons, if_neg]
    simp [h a rfl]

theorem dropWhile_ws_idem (l : List Char) :
    (l.dropWhile wsChar).dropWhile wsChar = l.dropWhile wsChar :=
  dropWhile_eq_self_of_head _ (fun c h => dropWhile_head_not l c h)

theorem trimChars_idem (l : List Char) : trimChars (trimChars l) = trimChars l := by
  unfold trimChars
  set A := l.dropWhile wsChar with hA
  set B := A.reverse.dropWhile wsChar with hB
  have hsuf : B <:+ A.reverse := List.dropWhile_suffix _
  have hpre : B.reverse <+: A := by
    have h2 : B.reverse <+: A.reverse.reverse := List.reverse_prefix.mpr hsuf
    rwa [List.reverse_reverse] at h2
  have hstep1 : B.reverse.dropWhile wsChar = B.reverse := by
    apply dropWhile_eq_self_of_head
    intro c hc
    obtain ⟨t, ht⟩ := hpre
    cases hBr : B.reverse with
    | nil => rw [hBr] at hc; simp at hc
    | cons b bs =>
      rw [hBr] at hc ht
      have hb : b = c := by simpa using hc
      have hAh : A.head? = some c := by
        rw [← ht, List.cons_append, List.head?_cons, hb]
      rw [hA] at hAh
      exact dropWhile_head_not l c hAh
  have hstep2 : B.dropWhile wsChar = B := by rw [hB]; exact dropWhile_ws_idem _
  rw [hstep1, List.reverse_reverse, hstep2]

theorem trimChars_cons_ws (c : Char) (l : List Char) (h : wsChar c = true) :
    trimChars (c :: l) = trimChars l := by
  unfold trimChars
  rw [List.dropWhile_cons, if_pos h]

theorem trimChars_concat_ws (l : List Char) (c : Char) (h : wsChar c = true) :
    trimChars (l ++ [c]) = trimChars l := by
  unfold trimChars
  rw [List.dropWhile_append]
  by_cases he : (l.dropWhile wsChar).isEmpty = true
  · rw [if_pos he]
    have h1 : ([c].dropWhile wsChar) = [] := by simp [List.dropWhile_cons, h]
    have h2 : l.dropWhile wsChar = [] := by simpa [List.isEmpty_iff] using he
    rw [h1, h2]
  · rw [if_neg he]
    rw [List.reverse_append]
    have hrc : ([c] : List Char).reverse = [c] := rfl
    rw [hrc, List.singleton_append, List.dropWhile_cons, if_pos h]

theorem trimChars_of_ends (a b : Char) (l : List Char)
    (ha : wsChar a = false) (hb : wsChar b = false) :
    trimChars (a :: l ++ [b]) = a :: l ++ [b] := by
  unfold trimChars
  have h1 : (a :: l ++ [b]).dropWhile wsChar = a :: l ++ [b] := by
    rw [List.cons_append, List.dropWhile_cons,
      if_neg (show ¬wsChar a = true by simp [ha])]
  have h2 : (a :: l ++ [b]).reverse = b :: (l.reverse ++ [a]) := by
    simp
  have h3 : (a :: l ++ [b]).reverse.dropWhile wsChar = (a :: l ++ [b]).reverse := by
    rw [h2, List.dropWhile_cons, if_neg]
    simp [hb]
  rw [h1, h3, List.reverse_reverse]

theorem trimChars_all_not_ws (l : List Char)
    (h : ∀ c ∈ l, wsChar c = false) : trimChars l = l := by
  unfold trimChars
  have h1 : l.dropWhile wsChar = l :=
    dropWhile_eq_self_of_head _ (fun c hc => h c (mem_of_head? hc))
  rw [h1]
  have h2 : l.reverse.dropWhile wsChar = l.reverse :=
    dropWhile_eq_self_of_head _
      (fun c hc => h c (List.mem_reverse.mp (mem_of_head? hc)))
  rw [h2, List.reverse_reverse]

theorem isWsOnly_false_of_mem (l : String) (c : Char) (hc : c ∈ l.data)
    (hw : wsChar c = false) : isWsOnly l = false := by
  unfold isWsOnly
  by_contra h
  rw [Bool.not_eq_false, List.all_eq_true] at h
  rw [h c hc] at hw
  exact Bool.noConfusion hw

theorem takeWhile_append_not {p : Char → Bool} :
    ∀ (A : List Char) (b : Char) (C : List Char),
      (∀ c ∈ A, p c = true) → p b = false →
      (A ++ b :: C).takeWhile p = A ∧ (A ++ b :: C).dropWhile p = b :: C := by
  intro A
  induction A with
  | nil =>
    intro b C _ hb
    refine ⟨?_, ?_⟩
    · rw [List.nil_append, List.takeWhile_cons, if_neg]
      simp [hb]
    · rw [List.nil_append, List.dropWhile_cons, if_neg]
      simp [hb]
  | cons a A' ih =>
    intro b C hA hb
    have hpa : p a = true := hA a (List.mem_cons_self _ _)
    have ih' := ih b C (fun c hc => hA c (List.mem_cons_of_mem _ hc)) hb
    refine ⟨?_, ?_⟩
    · rw [List.cons_append, List.takeWhile_cons, if_pos hpa, ih'.1]
    · rw [List.cons_append, List.dropWhile_cons, if_pos hpa, ih'.2]

/-! ## Round-trip development: the scalar codec -/

theorem natDigitsF_spec : ∀ (fuel n : Nat), n < fuel →
    natDigitsF fuel n ≠ [] ∧ (∀ c ∈ natDigitsF fuel n, isDigitC c = true) ∧
    digitsToNat (natDigitsF fuel n) = n := by
  intro fuel
  induction fuel with
  | zero => intro n h; exact absurd h (Nat.not_lt_zero n)
  | succ f ih =>
    intro n h
    by_cases h10 : n < 10
    · simp only [natDigitsF, if_pos h10]
      refine ⟨by simp, ?_, ?_⟩
      · intro c hc
        simp at hc
        subst hc
        interval_cases n <;> decide
      · interval_cases n <;> decide
    · have hdiv : n / 10 < f := by omega
      obtain ⟨hne, hall, hval⟩ := ih (n / 10) hdiv
      simp only [natDigitsF, if_neg h10]
      have hk : n % 10 < 10 := Nat.mod_lt _ (by omega)
      have hchar : (Char.ofNat (48 + n % 10)).toNat = 48 + n % 10 := by
        generalize n % 10 = k at hk
        interval_cases k <;> decide
      have hdig : isDigitC (Char.ofNat (48 + n % 10)) = true := by
        generalize n % 10 = k at hk
        interval_cases k <;> decide
      refine ⟨by simp, ?_, ?_⟩
      · intro c hc
        rw [List.mem_append] at hc
        rcases hc with hc | hc
        · exact hall c hc
        · simp at hc
          subst hc
          exact hdig
      · have hfold : digitsToNat (natDigitsF f (n / 10) ++ [Char.ofNat (48 + n % 10)])
            = digitsToNat (natDigitsF f (n / 10)) * 10 +
              ((Char.ofNat (48 + n % 10)).toNat - '0'.toNat) := by
          simp [digitsToNat, List.foldl_append]
        rw [hfold, hval, hchar]
        have h0 : '0'.toNat = 48 := rfl
        rw [h0]
        omega

theorem scalarParse_digits (l : List Char) (hne : l ≠ [])
    (hd : ∀ c ∈ l, isDigitC c = true) :
    scalarParse ⟨l⟩ = FMValue.int (digitsToNat l) := by
  have hnt : (⟨l⟩ : String) ≠ "true" := by
    intro hh
    have hl : l = "true".data := congrArg String.data hh
    rw [hl] at hd
    exact absurd (hd 't' (by decide)) (by decide)
  have hnf : (⟨l⟩ : String) ≠ "false" := by
    intro hh
    have hl : l = "false".data := congrArg String.data hh
    rw [hl] at hd
    exact absurd (hd 'f' (by decide)) (by decide)
  have hne' : (⟨l⟩ : String) ≠ "" := by
    intro hh
    exact hne (congrArg String.data hh)
  unfold scalarParse
  rw [if_neg hnt, if_neg hnf, if_pos]
  rw [Bool.and_eq_true]
  exact ⟨decide_eq_true hne', List.all_eq_true.mpr hd⟩

theorem scalarParse_int_nonneg (s : String) (n : Int)
    (h : scalarParse s = FMValue.int n) : 0 ≤ n := by
  unfold scalarParse at h
  repeat' split at h
  all_goals cases h
  exact Int.ofNat_nonneg _

theorem scalar_roundtrip (v : FMValue) (hv : ∀ n : Int, v = FMValue.int n → 0 ≤ n) :
    scalarParse (trimS (scalarRender v)) = v := by
  match v with
  | .bool true => decide
  | .bool false => decide
  | .int n =>
    have h0 : 0 ≤ n := hv n rfl
    have hrender : scalarRender (.int n) = ⟨natDigits n.toNat⟩ := by
      simp [scalarRender, h0]
    rw [hrender]
    obtain ⟨hne, hall, hval⟩ :=
      natDigitsF_spec (n.toNat + 1) n.toNat (Nat.lt_succ_self _)
    have hval' : digitsToNat (natDigits n.toNat) = n.toNat := hval
    have htrim : trimS ⟨natDigits n.toNat⟩ = ⟨natDigits n.toNat⟩ := by
      show (⟨trimChars (natDigits n.toNat)⟩ : String) = _
      rw [trimChars_all_not_ws (natDigits n.toNat)
        (fun c hc => not_ws_of_digit c (hall c hc))]
    rw [htrim, scalarParse_digits (natDigits n.toNat) hne hall, hval',
      Int.toNat_of_nonneg h0]
  | .str s =>
    by_cases hcond : (decide (scalarParse s = FMValue.str s) && decide (trimS s = s)) = true
    · have hrender : scalarRender (.str s) = s := by
        simp only [scalarRender]
        rw [if_pos hcond]
      rw [hrender]
      rw [Bool.and_eq_true, decide_eq_true_eq, decide_eq_true_eq] at hcond
      rw [hcond.2]
      exact hcond.1
    · have hrender : scalarRender (.str s) = "\"" ++ s ++ "\"" := by
        simp only [scalarRender]
        rw [if_neg hcond]
      rw [hrender]
      have hdata : ("\"" ++ s ++ "\"").data = '"' :: s.data ++ ['"'] := by
        rw [String.data_append, String.data_append]
        rfl
      have htrim : trimS ("\"" ++ s ++ "\"") = "\"" ++ s ++ "\"" := by
        show (⟨trimChars ("\"" ++ s ++ "\"").data⟩ : String) = _
        rw [hdata, trimChars_of_ends '"' '"' s.data (by decide) (by decide), ← hdata]
      rw [htrim]
      have hnt : ("\"" ++ s ++ "\"" : String) ≠ "true" := by
        intro hh
        have hl := congrArg String.data hh
        rw [hdata] at hl
        simp at hl
      have hnf : ("\"" ++ s ++ "\"" : String) ≠ "false" := by
        intro hh
        have hl := congrArg String.data hh
        rw [hdata] at hl
        simp at hl
      have hallf : ("\"" ++ s ++ "\"" : String).data.all isDigitC = false := by
        rw [hdata, List.cons_append, List.all_cons,
          show isDigitC '"' = false from by decide, Bool.false_and]
      have hndig : ¬((decide (("\"" ++ s ++ "\"" : String) ≠ "") &&
          ("\"" ++ s ++ "\"" : String).data.all isDigitC) = true) := by
        rw [hallf, Bool.and_false]
        decide
      have hq : (decide (("\"" ++ s ++ "\"" : String).data.length ≥ 2) &&
          decide (("\"" ++ s ++ "\"" : String).data.head? = some '"') &&
          decide (("\"" ++ s ++ "\"" : String).data.getLast? = some '"')) = true := by
        rw [Bool.and_eq_true, Bool.and_eq_true]
        refine ⟨⟨decide_eq_true ?_, decide_eq_true ?_⟩, decide_eq_true ?_⟩
        · rw [hdata]
          simp [List.length_append]
        · rw [hdata, List.cons_append]
          rfl
        · rw [hdata]
          exact List.getLast?_concat _
      unfold scalarParse
      rw [if_neg hnt, if_neg hnf, if_neg hndig, if_pos hq, hdata]
      rw [List.cons_append]
      simp [List.dropLast_concat]

/-! ## Round-trip development: mapping lines -/

theorem parseYamlLine_render (k : String) (v : FMValue)
    (hk1 : k ≠ "") (hk2 : trimS k = k) (hk3 : ∀ c ∈ k.data, c ≠ ':')
    (hv : ∀ n : Int, v = FMValue.int n → 0 ≤ n) :
    parseYamlLine (k ++ ": " ++ scalarRender v) = some (k, v) := by
  have hdata : (k ++ ": " ++ scalarRender v).data
      = k.data ++ ':' :: ' ' :: (scalarRender v).data := by
    rw [String.data_append, String.data_append]
    simp
  have hsplit := takeWhile_append_not (p := fun c => decide (c ≠ ':')) k.data ':'
      (' ' :: (scalarRender v).data)
      (fun c hc => decide_eq_true (hk3 c hc)) (by decide)
  unfold parseYamlLine
  rw [hdata, hsplit.2]
  dsimp only
  rw [hsplit.1]
  have hmk : (⟨k.data⟩ : String) = k := rfl
  rw [hmk]
  have hvs : scalarParse (trimS ⟨' ' :: (scalarRender v).data⟩) = v := by
    have hts : trimS ⟨' ' :: (scalarRender v).data⟩ = trimS (scalarRender v) := by
      show (⟨trimChars (' ' :: (scalarRender v).data)⟩ : String) = _
      rw [trimChars_cons_ws ' ' _ (by decide)]
      rfl
    rw [hts]
    exact scalar_roundtrip v hv
  rw [if_pos]
  · rw [hvs]
  · rw [Bool.and_eq_true, Bool.and_eq_true]
    refine ⟨⟨decide_eq_true hk1, decide_eq_true hk2⟩, ?_⟩
    rw [Bool.or_eq_true]
    right
    rw [List.head?_cons]
    decide

theorem mem_trimChars {c : Char} {l : List Char} (h : c ∈ trimChars l) : c ∈ l := by
  unfold trimChars at h
  rw [List.mem_reverse] at h
  have h2 := (List.dropWhile_suffix wsChar).subset h
  rw [List.mem_reverse] at h2
  exact (List.dropWhile_suffix wsChar).subset h2

theorem parseYamlLine_wf (l : String) (e : String × FMValue)
    (h : parseYamlLine l = some e) : entryWfY e := by
  unfold parseYamlLine at h
  split at h
  · exact Option.noConfusion h
  · simp only at h
    split at h
    · rename_i hcond
      cases h
      rw [Bool.and_eq_true, Bool.and_eq_true] at hcond
      obtain ⟨⟨h1, h2⟩, _⟩ := hcond
      refine ⟨of_decide_eq_true h1, of_decide_eq_true h2, ?_, ?_⟩
      · intro c hc
        have hc' : c ∈ List.takeWhile (fun c => decide (c ≠ ':')) l.data := hc
        have hp := List.mem_takeWhile_imp (p := fun c => decide (c ≠ ':')) hc'
        exact of_decide_eq_true hp
      · intro n hn
        exact scalarParse_int_nonneg _ n hn
    · exact Option.noConfusion h

theorem parseYamlLines_render (es : List (String × FMValue))
    (h : ∀ e ∈ es, entryWfY e) :
    parseYamlLines (renderYamlLines es) = some es := by
  induction es with
  | nil => rfl
  | cons e es' ih =>
    obtain ⟨h1, h2, h3, h4⟩ := h e (List.mem_cons_self _ _)
    have ih' := ih (fun x hx => h x (List.mem_cons_of_mem _ hx))
    show parseYamlLines ((e.1 ++ ": " ++ scalarRender e.2) :: renderYamlLines es') = _
    unfold parseYamlLines at ih' ⊢
    rw [List.foldr_cons, ih']
    dsimp only
    have hws : isWsOnly (e.1 ++ ": " ++ scalarRender e.2) = false := by
      apply isWsOnly_false_of_mem _ ':'
      · rw [String.data_append, String.data_append]
        simp
      · decide
    rw [if_neg (show ¬ isWsOnly (e.1 ++ ": " ++ scalarRender e.2) = true by
      rw [hws]; decide)]
    rw [parseYamlLine_render e.1 e.2 h1 h2 h3 h4]

theorem parseYamlLines_wf :
    ∀ (lines : List String) (es : List (String × FMValue)),
      parseYamlLines lines = some es → ∀ e ∈ es, entryWfY e := by
  intro lines
  induction lines with
  | nil =>
    intro es h e he
    cases h
    simp at he
  | cons l L ih =>
    intro es h e he
    unfold parseYamlLines at h ih
    rw [List.foldr_cons] at h
    cases hacc : List.foldr _ (some []) L with
    | none =>
      rw [hacc] at h
      dsimp only at h
      exact Option.noConfusion h
    | some es' =>
      rw [hacc] at h
      dsimp only at h
      split at h
      · cases h
        exact ih es hacc e he
      · cases hline : parseYamlLine l with
        | none =>
          rw [hline] at h
          exact Option.noConfusion h
        | some e0 =>
          rw [hline] at h
          dsimp only at h
          cases h
          rcases List.mem_cons.mp he with he0 | he'
          · subst he0
            exact parseYamlLine_wf l e hline
          · exact ih es' hacc e he'

theorem parseTomlLine_render (k : String) (s : String)
    (hk1 : k ≠ "") (hk2 : trimS k = k) (hk3 : ∀ c ∈ k.data, c ≠ '=')
    (hs : ∀ c ∈ s.data, c ≠ '"') :
    parseTomlLine (k ++ " = " ++ ("\"" ++ s ++ "\"")) = some (k, FMValue.str s) := by
  have hdata : (k ++ " = " ++ ("\"" ++ s ++ "\"")).data
      = (k.data ++ [' ']) ++ '=' :: (' ' :: ('"' :: s.data ++ ['"'])) := by
    simp [String.data_append]
  have hsplit := takeWhile_append_not (p := fun c => decide (c ≠ '='))
      (k.data ++ [' ']) '=' (' ' :: ('"' :: s.data ++ ['"']))
      (fun c hc => by
        rcases List.mem_append.mp hc with hc | hc
        · exact decide_eq_true (hk3 c hc)
        · simp at hc
          subst hc
          decide)
      (by decide)
  unfold parseTomlLine
  rw [hdata, hsplit.2]
  dsimp only
  rw [hsplit.1]
  rw [trimChars_concat_ws k.data ' ' (by decide)]
  have hkey : (⟨trimChars k.data⟩ : String) = k := hk2
  rw [hkey]
  rw [trimChars_cons_ws ' ' _ (by decide),
    trimChars_of_ends '"' '"' s.data (by decide) (by decide)]
  rw [if_pos]
  · rw [List.cons_append]
    simp [List.dropLast_concat]
  · rw [Bool.and_eq_true, Bool.and_eq_true, Bool.and_eq_true, Bool.and_eq_true]
    refine ⟨⟨⟨⟨decide_eq_true hk1, decide_eq_true ?_⟩, decide_eq_true ?_⟩,
      decide_eq_true ?_⟩, ?_⟩
    · show ('"' :: s.data ++ ['"']).length ≥ 2
      simp [List.length_append]
    · rw [List.cons_append]
      rfl
    · exact List.getLast?_concat _
    · rw [List.cons_append]
      show ((('"' :: (s.data ++ ['"'])).drop 1).dropLast.all _) = true
      rw [List.drop_one, List.tail_cons, List.dropLast_concat]
      exact List.all_eq_true.mpr (fun c hc => decide_eq_true (hs c hc))

theorem parseTomlLine_wf (l : String) (e : String × FMValue)
    (h : parseTomlLine l = some e) : entryWfT e := by
  unfold parseTomlLine at h
  split at h
  · exact Option.noConfusion h
  · simp only at h
    split at h
    · rename_i hcond
      cases h
      rw [Bool.and_eq_true, Bool.and_eq_true, Bool.and_eq_true,
        Bool.and_eq_true] at hcond
      obtain ⟨⟨⟨⟨h1, _⟩, _⟩, _⟩, h5⟩ := hcond
      refine ⟨of_decide_eq_true h1, ?_, ?_, ?_⟩
      · show (⟨trimChars
            (trimChars (List.takeWhile (fun c => decide (c ≠ '=')) l.data))⟩ : String)
            = ⟨trimChars (List.takeWhile (fun c => decide (c ≠ '=')) l.data)⟩
        rw [trimChars_idem]
      · intro c hc
        have hc2 : c ∈ trimChars (List.takeWhile (fun c => decide (c ≠ '=')) l.data) := hc
        have hc4 : c ∈ List.takeWhile (fun c => decide (c ≠ '=')) l.data :=
          mem_trimChars hc2
        have hp := List.mem_takeWhile_imp (p := fun c => decide (c ≠ '=')) hc4
        exact of_decide_eq_true hp
      · refine ⟨_, rfl, ?_⟩
        intro c hc
        exact of_decide_eq_true (List.all_eq_true.mp h5 c hc)
    · exact Option.noConfusion h

theorem parseTomlLines_wf :
    ∀ (lines : List String) (es : List (String × FMValue)),
      parseTomlLines lines = some es → ∀ e ∈ es, entryWfT e := by
  intro lines
  induction lines with
  | nil =>
    intro es h e he
    cases h
    simp at he
  | cons l L ih =>
    intro es h e he
    unfold parseTomlLines at h ih
    rw [List.foldr_cons] at h
    cases hacc : List.foldr _ (some []) L with
    | none =>
      rw [hacc] at h
      dsimp only at h
      exact Option.noConfusion h
    | some es' =>
      rw [hacc] at h
      dsimp only at h
      split at h
      · cases h
        exact ih es hacc e he
      · cases hline : parseTomlLine l with
        | none =>
          rw [hline] at h
          exact Option.noConfusion h
        | some e0 =>
          rw [hline] at h
          dsimp only at h
          cases h
          rcases List.mem_cons.mp he with he0 | he'
          · subst he0
            exact parseTomlLine_wf l e hline
          · exact ih es' hacc e he'

theorem parseTomlLines_render (es : List (String × FMValue))
    (h : ∀ e ∈ es, entryWfT e) :
    parseTomlLines (P16.renderTomlLines es) = some es := by
  induction es with
  | nil => rfl
  | cons e es' ih =>
    obtain ⟨h1, h2, h3, s, hes, hs⟩ := h e (List.mem_cons_self _ _)
    have ih' := ih (fun x hx => h x (List.mem_cons_of_mem _ hx))
    have hrend : P16.renderTomlLines (e :: es')
        = (e.1 ++ " = " ++ ("\"" ++ s ++ "\"")) :: P16.renderTomlLines es' := by
      simp only [P16.renderTomlLines, List.map_cons, hes]
    rw [hrend]
    unfold parseTomlLines at ih' ⊢
    rw [List.foldr_cons, ih']
    dsimp only
    have hws : isWsOnly (e.1 ++ " = " ++ ("\"" ++ s ++ "\"")) = false := by
      apply isWsOnly_false_of_mem _ '='
      · simp [String.data_append]
      · decide
    rw [if_neg (show ¬ isWsOnly (e.1 ++ " = " ++ ("\"" ++ s ++ "\"")) = true by
      rw [hws]; decide)]
    rw [parseTomlLine_render e.1 s h1 h2 h3 hs]
    dsimp only
    rw [← hes]

/-! ## Round-trip development: rendered lines are not delimiters -/

theorem isDelimLine_false_of_mem (d l : String) (c : Char) (hc : c ∈ l.data)
    (hd3 : d.data.length = 3)
    (hcd : ∀ x ∈ d.data, c ≠ x) (hw : wsChar c = false) :
    isDelimLine d l = false := by
  unfold isDelimLine
  by_contra h
  rw [Bool.not_eq_false, Bool.and_eq_true] at h
  obtain ⟨hp, hwsr⟩ := h
  unfold hasPrefixS at hp
  rw [List.isPrefixOf_iff_prefix] at hp
  obtain ⟨rest, hrest⟩ := hp
  rw [← hrest, List.mem_append] at hc
  rcases hc with hc | hc
  · exact hcd c hc rfl
  · have hdrop : l.data.drop 3 = rest := by
      rw [← hrest, ← hd3, List.drop_left]
    unfold isWsOnly at hwsr
    rw [hdrop, List.all_eq_true] at hwsr
    rw [hwsr c hc] at hw
    exact Bool.noConfusion hw

theorem renderYaml_not_delim (k : String) (v : FMValue) :
    isDelimLine "---" (k ++ ": " ++ scalarRender v) = false := by
  apply isDelimLine_false_of_mem _ _ ':'
  · rw [String.data_append, String.data_append]
    simp
  · rfl
  · intro x hx
    simp at hx
    subst hx
    decide
  · decide

theorem renderToml_not_delim (k s : String) :
    isDelimLine "+++" (k ++ " = " ++ ("\"" ++ s ++ "\"")) = false := by
  apply isDelimLine_false_of_mem _ _ '='
  · simp [String.data_append]
  · rfl
  · intro x hx
    simp at hx
    subst hx
    decide
  · decide

/-! ## Round-trip development: map model -/

theorem lookupKV_cons (e : String × FMValue) (m : List (String × FMValue))
    (k : String) :
    lookupKV (e :: m) k = if e.1 = k then some e.2 else lookupKV m k := by
  unfold lookupKV
  by_cases he : e.1 = k
  · rw [List.find?_cons_of_pos _ (by simp [he]), if_pos he]
  · rw [List.find?_cons_of_neg _ (by simp [he]), if_neg he]

theorem lookupKV_isSome_iff (m : List (String × FMValue)) (k : String) :
    (lookupKV m k).isSome = true ↔ ∃ e ∈ m, e.1 = k := by
  unfold lookupKV
  cases hf : m.find? (fun e => decide (e.1 = k)) with
  | none =>
    dsimp only
    constructor
    · intro hh; exact Bool.noConfusion hh
    · rintro ⟨e, he, hek⟩
      rw [List.find?_eq_none] at hf
      exact absurd (decide_eq_true hek) (hf e he)
  | some e =>
    dsimp only
    constructor
    · intro _
      have hpred := List.find?_some (p := fun x : String × FMValue => decide (x.1 = k)) hf
      exact ⟨e, List.mem_of_find?_eq_some hf, of_decide_eq_true hpred⟩
    · intro _
      rfl

theorem lookupKV_mem_of_some (m : List (String × FMValue)) (k : String)
    (v : FMValue) (h : lookupKV m k = some v) :
    ∃ e ∈ m, e.1 = k ∧ e.2 = v := by
  unfold lookupKV at h
  cases hf : m.find? (fun e => decide (e.1 = k)) with
  | none =>
    rw [hf] at h
    exact Option.noConfusion h
  | some e =>
    rw [hf] at h
    dsimp only at h
    cases h
    have hpred := List.find?_some (p := fun x : String × FMValue => decide (x.1 = k)) hf
    exact ⟨e, List.mem_of_find?_eq_some hf, of_decide_eq_true hpred, rfl⟩

theorem lookupKV_none_iff (m : List (String × FMValue)) (k : String) :
    lookupKV m k = Option.none ↔ ∀ e ∈ m, e.1 ≠ k := by
  unfold lookupKV
  cases hf : m.find? (fun e => decide (e.1 = k)) with
  | none =>
    dsimp only
    rw [List.find?_eq_none] at hf
    constructor
    · intro _ e he
      intro hh
      exact absurd (decide_eq_true hh) (hf e he)
    · intro _
      rfl
  | some e =>
    dsimp only
    constructor
    · intro hh
      exact Option.noConfusion hh
    · intro hall
      have hpred := List.find?_some (p := fun x : String × FMValue => decide (x.1 = k)) hf
      exact absurd (of_decide_eq_true hpred)
        (hall e (List.mem_of_find?_eq_some hf))

theorem lookupKV_map_replace_ne (m : List (String × FMValue)) (k k' : String)
    (v : FMValue) (hne : k' ≠ k) :
    lookupKV (m.map fun e => if e.1 = k then (k, v) else e) k' = lookupKV m k' := by
  induction m with
  | nil => rfl
  | cons e m' ih =>
    rw [List.map_cons, lookupKV_cons, lookupKV_cons]
    by_cases he : e.1 = k
    · rw [if_pos he]
      rw [if_neg (show ¬(k, v).1 = k' from fun hh => hne hh.symm),
        if_neg (show ¬e.1 = k' from fun hh => hne ((he ▸ hh : (k : String) = k')).symm)]
      exact ih
    · rw [if_neg he]
      by_cases he' : e.1 = k'
      · rw [if_pos he', if_pos he']
      · rw [if_neg he', if_neg he']
        exact ih

theorem lookupKV_map_replace_eq (m : List (String × FMValue)) (k : String)
    (v : FMValue) (hs : (lookupKV m k).isSome = true) :
    lookupKV (m.map fun e => if e.1 = k then (k, v) else e) k = some v := by
  induction m with
  | nil => exact Bool.noConfusion hs
  | cons e m' ih =>
    rw [List.map_cons, lookupKV_cons]
    by_cases he : e.1 = k
    · rw [if_pos he, if_pos rfl]
    · rw [if_neg he, if_neg he]
      apply ih
      rw [lookupKV_cons, if_neg he] at hs
      exact hs

theorem lookupKV_append_single (m : List (String × FMValue)) (k k' : String)
    (v : FMValue) :
    lookupKV (m ++ [(k, v)]) k' =
      match lookupKV m k' with
      | some w => some w
      | Option.none => if k = k' then some v else Option.none := by
  induction m with
  | nil =>
    rw [List.nil_append, lookupKV_cons]
    rfl
  | cons e m' ih =>
    rw [List.cons_append, lookupKV_cons, lookupKV_cons]
    by_cases he : e.1 = k'
    · rw [if_pos he, if_pos he]
    · rw [if_neg he, if_neg he]
      exact ih

theorem lookupKV_insertKV (m : List (String × FMValue)) (k : String)
    (v : FMValue) (k' : String) :
    lookupKV (insertKV m k v) k' = if k' = k then some v else lookupKV m k' := by
  unfold insertKV
  by_cases hs : (lookupKV m k).isSome = true
  · rw [if_pos hs]
    by_cases hk : k' = k
    · subst hk
      rw [if_pos rfl, lookupKV_map_replace_eq m k' v hs]
    · rw [if_neg hk, lookupKV_map_replace_ne m k k' v hk]
  · rw [if_neg hs, lookupKV_append_single]
    by_cases hk : k' = k
    · have hnone : lookupKV m k' = Option.none := by
        cases hmm : lookupKV m k' with
        | none => rfl
        | some w =>
          rw [hk] at hmm
          rw [hmm] at hs
          simp at hs
      rw [hnone]
      dsimp only
      rw [if_pos hk.symm, if_pos hk]
    · rw [if_neg hk]
      cases hmm : lookupKV m k' with
      | none =>
        dsimp only
        rw [if_neg (fun hh => hk hh.symm)]
      | some w => rfl

theorem mem_insertKV (m : List (String × FMValue)) (k : String) (v : FMValue)
    (e : String × FMValue) (h : e ∈ insertKV m k v) : e ∈ m ∨ e = (k, v) := by
  unfold insertKV at h
  split at h
  · rw [List.mem_map] at h
    obtain ⟨x, hx, hfx⟩ := h
    by_cases hxk : x.1 = k
    · rw [if_pos hxk] at hfx
      right
      exact hfx.symm
    · rw [if_neg hxk] at hfx
      left
      rw [← hfx]
      exact hx
  · rw [List.mem_append] at h
    rcases h with h | h
    · left; exact h
    · right; simpa using h

theorem mem_entriesToMap_go (es : List (String × FMValue)) :
    ∀ (acc : List (String × FMValue)) (e : String × FMValue),
      e ∈ es.foldl (fun m x => insertKV m x.1 x.2) acc → e ∈ acc ∨ e ∈ es := by
  induction es with
  | nil =>
    intro acc e h
    left
    exact h
  | cons x es' ih =>
    intro acc e h
    rw [List.foldl_cons] at h
    rcases ih (insertKV acc x.1 x.2) e h with h2 | h2
    · rcases mem_insertKV acc x.1 x.2 e h2 with h3 | h3
      · left; exact h3
      · right
        rw [h3]
        exact List.mem_cons_self _ _
    · right
      exact List.mem_cons_of_mem _ h2

theorem mem_entriesToMap (es : List (String × FMValue)) (e : String × FMValue)
    (h : e ∈ P16.entriesToMap es) : e ∈ es := by
  unfold P16.entriesToMap at h
  rcases mem_entriesToMap_go es [] e h with h2 | h2
  · simp at h2
  · exact h2

theorem nodupKeys_insertKV (m : List (String × FMValue)) (k : String)
    (v : FMValue) (h : nodupKeys m) : nodupKeys (insertKV m k v) := by
  unfold insertKV
  split
  · unfold nodupKeys at h ⊢
    have hmap : ((m.map fun e => if e.1 = k then (k, v) else e).map Prod.fst)
        = m.map Prod.fst := by
      rw [List.map_map]
      apply List.map_congr_left
      intro e _
      by_cases he : e.1 = k
      · simp [Function.comp, he]
      · simp [Function.comp, he]
    rw [hmap]
    exact h
  · rename_i hs
    unfold nodupKeys at h ⊢
    rw [List.map_append, List.nodup_append]
    refine ⟨h, List.nodup_singleton _, ?_⟩
    intro a ha hb
    simp at hb
    apply hs
    rw [hb] at ha
    rw [List.mem_map] at ha
    obtain ⟨e, he, hek⟩ := ha
    exact (lookupKV_isSome_iff m k).mpr ⟨e, he, hek⟩

theorem nodupKeys_entriesToMap_go :
    ∀ (es : List (String × FMValue)) (acc : List (String × FMValue)),
      nodupKeys acc → nodupKeys (es.foldl (fun m x => insertKV m x.1 x.2) acc) := by
  intro es
  induction es with
  | nil => intro acc h; exact h
  | cons x es' ih =>
    intro acc h
    rw [List.foldl_cons]
    exact ih _ (nodupKeys_insertKV acc x.1 x.2 h)

theorem nodupKeys_entriesToMap (es : List (String × FMValue)) :
    nodupKeys (P16.entriesToMap es) :=
  nodupKeys_entriesToMap_go es [] (by simp [nodupKeys])

theorem lookupKV_foldl_insert (es : List (String × FMValue)) :
    ∀ (acc : List (String × FMValue)) (k : String), nodupKeys es →
      lookupKV (es.foldl (fun m x => insertKV m x.1 x.2) acc) k =
        match lookupKV es k with
        | some v => some v
        | Option.none => lookupKV acc k := by
  induction es with
  | nil =>
    intro acc k _
    rfl
  | cons x es' ih =>
    intro acc k hnd
    rw [List.foldl_cons]
    have hnd' : nodupKeys es' := by
      unfold nodupKeys at hnd ⊢
      rw [List.map_cons, List.nodup_cons] at hnd
      exact hnd.2
    have hx : x.1 ∉ es'.map Prod.fst := by
      unfold nodupKeys at hnd
      rw [List.map_cons, List.nodup_cons] at hnd
      exact hnd.1
    rw [ih (insertKV acc x.1 x.2) k hnd', lookupKV_cons]
    by_cases hk : x.1 = k
    · rw [if_pos hk]
      have hnone : lookupKV es' k = Option.none := by
        cases hc : lookupKV es' k with
        | none => rfl
        | some w =>
          exfalso
          apply hx
          rw [hk]
          have hsm : (lookupKV es' k).isSome = true := by rw [hc]; rfl
          obtain ⟨e, he, hek⟩ := (lookupKV_isSome_iff es' k).mp hsm
          rw [List.mem_map]
          exact ⟨e, he, hek⟩
      rw [hnone]
      dsimp only
      rw [lookupKV_insertKV, if_pos hk.symm]
    · rw [if_neg hk]
      cases hc : lookupKV es' k with
      | some w => dsimp only
      | none =>
        dsimp only
        rw [lookupKV_insertKV, if_neg (fun hh => hk hh.symm)]

theorem lookupKV_entriesToMap (es : List (String × FMValue)) (k : String)
    (hnd : nodupKeys es) :
    lookupKV (P16.entriesToMap es) k = lookupKV es k := by
  unfold P16.entriesToMap
  rw [lookupKV_foldl_insert es [] k hnd]
  cases hc : lookupKV es k with
  | some w => rfl
  | none => rfl

theorem insertSorted_perm (e : String × FMValue) (l : List (String × FMValue)) :
    (P16.insertSorted e l).Perm (e :: l) := by
  induction l with
  | nil => exact List.Perm.refl _
  | cons f fs ih =>
    unfold P16.insertSorted
    split
    · exact (List.Perm.cons f ih).trans (List.Perm.swap e f fs)
    · exact List.Perm.refl _

theorem sortEntries_perm (es : List (String × FMValue)) :
    (P16.sortEntries es).Perm es := by
  induction es with
  | nil => exact List.Perm.refl _
  | cons e es' ih =>
    unfold P16.sortEntries
    exact (insertSorted_perm e (P16.sortEntries es')).trans (List.Perm.cons e ih)

theorem lookupKV_some_of_mem_nodup (m : List (String × FMValue))
    (e : String × FMValue) (hnd : nodupKeys m) (hm : e ∈ m) :
    lookupKV m e.1 = some e.2 := by
  induction m with
  | nil => simp at hm
  | cons f m' ih =>
    rw [lookupKV_cons]
    rcases List.mem_cons.mp hm with he | he
    · subst he
      rw [if_pos rfl]
    · have hnd' : nodupKeys m' := by
        unfold nodupKeys at hnd
        rw [List.map_cons, List.nodup_cons] at hnd
        exact hnd.2
      have hne : ¬f.1 = e.1 := by
        intro hh
        unfold nodupKeys at hnd
        rw [List.map_cons, List.nodup_cons] at hnd
        apply hnd.1
        rw [hh]
        exact List.mem_map.mpr ⟨e, he, rfl⟩
      rw [if_neg hne]
      exact ih hnd' he

theorem lookupKV_perm (m m' : List (String × FMValue)) (hp : m.Perm m')
    (hnd : nodupKeys m) (k : String) : lookupKV m k = lookupKV m' k := by
  have hnd' : nodupKeys m' := (List.Perm.nodup_iff (List.Perm.map Prod.fst hp)).mp hnd
  cases hc : lookupKV m k with
  | some v =>
    obtain ⟨e, he, hek, hev⟩ := lookupKV_mem_of_some m k v hc
    have he' : e ∈ m' := (hp.mem_iff).mp he
    have hsome := lookupKV_some_of_mem_nodup m' e hnd' he'
    rw [hek, hev] at hsome
    rw [hsome]
  | none =>
    rw [lookupKV_none_iff] at hc
    symm
    rw [lookupKV_none_iff]
    intro e he
    exact hc e ((hp.mem_iff).mpr he)

/-! ## Round-trip development: block extraction -/

theorem findCloseGo_bound (d : String) :
    ∀ (L : List String) (j0 j : Nat), findCloseGo d L j0 = some j →
      j0 ≤ j ∧ j - j0 + 2 ≤ L.length := by
  intro L
  induction L with
  | nil => intro j0 j h; exact Option.noConfusion h
  | cons l rest ih =>
    intro j0 j h
    cases rest with
    | nil => exact Option.noConfusion h
    | cons l2 rest2 =>
      simp only [findCloseGo] at h
      split at h
      · cases h
        refine ⟨Nat.le_refl _, ?_⟩
        simp [List.length_cons]
      · obtain ⟨h1, h2⟩ := ih (j0 + 1) j h
        refine ⟨by omega, ?_⟩
        simp [List.length_cons] at h2 ⊢
        omega

theorem findClose_bound (d : String) (lines : List String) (j : Nat)
    (h : findClose d lines = some j) : 1 ≤ j ∧ j + 2 ≤ lines.length := by
  unfold findClose at h
  obtain ⟨h1, h2⟩ := findCloseGo_bound d (lines.drop 1) 1 j h
  rw [List.length_drop] at h2
  exact ⟨h1, by omega⟩

theorem findCloseGo_append (d : String) :
    ∀ (A B : List String) (dl : String) (j : Nat),
      (∀ l ∈ A, isDelimLine d l = false) → isDelimLine d dl = true → B ≠ [] →
      findCloseGo d (A ++ dl :: B) j = some (j + A.length) := by
  intro A
  induction A with
  | nil =>
    intro B dl j _ hdl hB
    cases B with
    | nil => exact absurd rfl hB
    | cons b B' =>
      rw [List.nil_append]
      simp [findCloseGo, hdl]
  | cons a A' ih =>
    intro B dl j hA hdl hB
    have ha : isDelimLine d a = false := hA a (List.mem_cons_self _ _)
    have ih' := ih B dl (j + 1) (fun l hl => hA l (List.mem_cons_of_mem _ hl)) hdl hB
    rw [List.cons_append]
    cases hT : A' ++ dl :: B with
    | nil => exact absurd hT (by simp)
    | cons t ts =>
      simp only [findCloseGo]
      rw [if_neg (show ¬isDelimLine d a = true by simp [ha])]
      rw [← hT, ih']
      congr 1
      simp [List.length_cons]
      omega

theorem swallow_zero (x y : String) (R rest : List String) (hrest : rest ≠ [])
    (hhead : ∀ b, rest.head? = some b → isWsOnly b = true → rest.length = 1) :
    swallowCount (x :: (R ++ y :: rest)) (1 + R.length) = 0 := by
  unfold swallowCount
  have hd2 : (x :: (R ++ y :: rest)).drop (1 + R.length + 1) = rest := by
    have hsplit2 : x :: (R ++ y :: rest) = ((x :: R) ++ [y]) ++ rest := by simp
    rw [hsplit2]
    apply List.drop_left'
    simp [List.length_append, List.length_cons]
    omega
  rw [hd2]
  have hlen3 : (x :: (R ++ y :: rest)).length - 2 - (1 + R.length) = rest.length - 1 := by
    simp [List.length_cons, List.length_append]
    omega
  rw [hlen3]
  cases hr : rest with
  | nil => exact absurd hr hrest
  | cons b rt =>
    by_cases hb : isWsOnly b = true
    · have hlen1 := hhead b (by rw [hr]; rfl) hb
      rw [hr] at hlen1
      have hrt : rt = [] := by
        cases rt with
        | nil => rfl
        | cons z zs => simp at hlen1
      subst hrt
      simp
    · rw [List.takeWhile_cons, if_neg hb]
      simp

theorem body_inv (lines : List String) (d : String) (j : Nat)
    (hj : findClose d lines = some j) :
    lines.drop (j + swallowCount lines j + 1) ≠ [] ∧
    (∀ b, (lines.drop (j + swallowCount lines j + 1)).head? = some b →
      isWsOnly b = true →
      (lines.drop (j + swallowCount lines j + 1)).length = 1) := by
  obtain ⟨hj1, hj2⟩ := findClose_bound d lines j hj
  set m := swallowCount lines j with hm
  have hmle : m ≤ lines.length - 2 - j := by
    rw [hm]
    unfold swallowCount
    exact Nat.min_le_right _ _
  constructor
  · intro hnil
    have hlen := congrArg List.length hnil
    rw [List.length_drop] at hlen
    simp at hlen
    omega
  · intro b hb hwsb
    by_cases hcase : m = lines.length - 2 - j
    · rw [List.length_drop]
      omega
    · have hmtw : m = ((lines.drop (j + 1)).takeWhile isWsOnly).length := by
        rcases Nat.le_total ((lines.drop (j + 1)).takeWhile isWsOnly).length
            (lines.length - 2 - j) with hle | hle
        · rw [hm]
          unfold swallowCount
          exact Nat.min_eq_left hle
        · exfalso
          apply hcase
          rw [hm]
          unfold swallowCount
          exact Nat.min_eq_right hle
      have hdw : lines.drop (j + m + 1) = (lines.drop (j + 1)).dropWhile isWsOnly := by
        have h1 : lines.drop (j + m + 1) = (lines.drop (j + 1)).drop m := by
          rw [List.drop_drop]
          congr 1
          omega
        have h2 := List.drop_left ((lines.drop (j + 1)).takeWhile isWsOnly)
          ((lines.drop (j + 1)).dropWhile isWsOnly)
        rw [List.takeWhile_append_dropWhile] at h2
        rw [h1, hmtw, h2]
      rw [hdw] at hb
      have hnb := dropWhile_head_not _ b hb
      rw [hnb] at hwsb
      exact Bool.noConfusion hwsb

theorem extract_block_yaml (R rest : List String) (es : List (String × FMValue))
    (hnodelim : ∀ l ∈ R, isDelimLine "---" l = false)
    (hparse : parseYamlLines R = some es)
    (hrest : rest ≠ [])
    (hhead : ∀ b, rest.head? = some b → isWsOnly b = true → rest.length = 1) :
    P16.extractFrontmatter ("---" :: (R ++ "---" :: rest))
      = .ok (some { type := .fmYAML, raw := R, data := P16.entriesToMap es }, rest) := by
  have hfc2 : findClose "---" ("---" :: (R ++ "---" :: rest)) = some (1 + R.length) := by
    show findCloseGo "---" (R ++ "---" :: rest) 1 = some (1 + R.length)
    exact findCloseGo_append "---" R rest "---" 1 hnodelim (by decide) hrest
  have hsw0 := swallow_zero "---" "---" R rest hrest hhead
  unfold P16.extractFrontmatter
  rw [List.head?_cons]
  dsimp only
  rw [if_pos (show isDelimLine "---" "---" = true by decide)]
  rw [hfc2]
  dsimp only
  have htake : ((("---" :: (R ++ "---" :: rest)).drop 1).take (1 + R.length - 1)) = R := by
    show (R ++ "---" :: rest).take (1 + R.length - 1) = R
    have h1 : 1 + R.length - 1 = R.length := by omega
    rw [h1]
    exact List.take_left' rfl
  rw [htake, hsw0]
  have hdropb : ("---" :: (R ++ "---" :: rest)).drop (1 + R.length + 0 + 1) = rest := by
    have hsplit2 : "---" :: (R ++ "---" :: rest) = (("---" :: R) ++ ["---"]) ++ rest := by
      simp
    rw [hsplit2]
    apply List.drop_left'
    simp [List.length_append, List.length_cons]
    omega
  rw [hdropb]
  unfold P16.FrontmatterData.setRaw
  dsimp only
  rw [hparse]

theorem extract_block_toml (R rest : List String) (es : List (String × FMValue))
    (hnodelim : ∀ l ∈ R, isDelimLine "+++" l = false)
    (hparse : parseTomlLines R = some es)
    (hrest : rest ≠ [])
    (hhead : ∀ b, rest.head? = some b → isWsOnly b = true → rest.length = 1) :
    P16.extractFrontmatter ("+++" :: (R ++ "+++" :: rest))
      = .ok (some { type := .fmTOML, raw := R, data := P16.entriesToMap es }, rest) := by
  have hfc2 : findClose "+++" ("+++" :: (R ++ "+++" :: rest)) = some (1 + R.length) := by
    show findCloseGo "+++" (R ++ "+++" :: rest) 1 = some (1 + R.length)
    exact findCloseGo_append "+++" R rest "+++" 1 hnodelim (by decide) hrest
  have hsw0 := swallow_zero "+++" "+++" R rest hrest hhead
  unfold P16.extractFrontmatter
  rw [List.head?_cons]
  dsimp only
  rw [if_neg (show ¬isDelimLine "---" "+++" = true by decide)]
  rw [if_pos (show isDelimLine "+++" "+++" = true by decide)]
  rw [hfc2]
  dsimp only
  have htake : ((("+++" :: (R ++ "+++" :: rest)).drop 1).take (1 + R.length - 1)) = R := by
    show (R ++ "+++" :: rest).take (1 + R.length - 1) = R
    have h1 : 1 + R.length - 1 = R.length := by omega
    rw [h1]
    exact List.take_left' rfl
  rw [htake, hsw0]
  have hdropb : ("+++" :: (R ++ "+++" :: rest)).drop (1 + R.length + 0 + 1) = rest := by
    have hsplit2 : "+++" :: (R ++ "+++" :: rest) = (("+++" :: R) ++ ["+++"]) ++ rest := by
      simp
    rw [hsplit2]
    apply List.drop_left'
    simp [List.length_append, List.length_cons]
    omega
  rw [hdropb]
  unfold P16.FrontmatterData.setRaw
  dsimp only
  rw [hparse]

theorem extract_inv (lines : List String) (fm : P16.FrontmatterData)
    (body : List String)
    (hex : P16.extractFrontmatter lines = .ok (some fm, body)) :
    body ≠ [] ∧
    (∀ b, body.head? = some b → isWsOnly b = true → body.length = 1) ∧
    ((fm.type = P16.FrontmatterType.fmYAML ∧
        ∃ es, parseYamlLines fm.raw = some es ∧ fm.data = P16.entriesToMap es) ∨
     (fm.type = P16.FrontmatterType.fmTOML ∧
        ∃ es, parseTomlLines fm.raw = some es ∧ fm.data = P16.entriesToMap es)) := by
  unfold P16.extractFrontmatter at hex
  split at hex
  · exact Option.noConfusion (congrArg (fun p => p.1) (Except.ok.inj hex))
  · split at hex
    · rename_i hdelim
      split at hex
      · rename_i j hj
        dsimp only at hex
        split at hex
        · exact Except.noConfusion hex
        · rename_i fm' hsr
          have hpair := Except.ok.inj hex
          have hfm : fm' = fm := Option.some.inj (congrArg (fun p => p.1) hpair)
          have hbody : lines.drop (j + swallowCount lines j + 1) = body :=
            congrArg (fun p => p.2) hpair
          unfold P16.FrontmatterData.setRaw at hsr
          dsimp only at hsr
          split at hsr
          · exact Except.noConfusion hsr
          · rename_i es hes
            have hfm2 := Except.ok.inj hsr
            obtain ⟨hb1, hb2⟩ := body_inv lines "---" j hj
            rw [hbody] at hb1 hb2
            refine ⟨hb1, hb2, Or.inl ?_⟩
            rw [← hfm, ← hfm2]
            exact ⟨rfl, es, hes, rfl⟩
      · exact Option.noConfusion (congrArg (fun p => p.1) (Except.ok.inj hex))
    · split at hex
      · rename_i hdelim2
        split at hex
        · rename_i j hj
          dsimp only at hex
          split at hex
          · exact Except.noConfusion hex
          · rename_i fm' hsr
            have hpair := Except.ok.inj hex
            have hfm : fm' = fm := Option.some.inj (congrArg (fun p => p.1) hpair)
            have hbody : lines.drop (j + swallowCount lines j + 1) = body :=
              congrArg (fun p => p.2) hpair
            unfold P16.FrontmatterData.setRaw at hsr
            dsimp only at hsr
            split at hsr
            · exact Except.noConfusion hsr
            · rename_i es hes
              have hfm2 := Except.ok.inj hsr
              obtain ⟨hb1, hb2⟩ := body_inv lines "+++" j hj
              rw [hbody] at hb1 hb2
              refine ⟨hb1, hb2, Or.inr ?_⟩
              rw [← hfm, ← hfm2]
              exact ⟨rfl, es, hes, rfl⟩
        · exact Option.noConfusion (congrArg (fun p => p.1) (Except.ok.inj hex))
      · exact Option.noConfusion (congrArg (fun p => p.1) (Except.ok.inj hex))

theorem extract_reconstruct (fm : P16.FrontmatterData) (rest : List String)
    (hwf : (fm.type = P16.FrontmatterType.fmYAML ∧ ∀ e ∈ fm.data, entryWfY e) ∨
           (fm.type = P16.FrontmatterType.fmTOML ∧ ∀ e ∈ fm.data, entryWfT e))
    (hnd : nodupKeys fm.data)
    (hrest : rest ≠ [])
    (hhead : ∀ b, rest.head? = some b → isWsOnly b = true → rest.length = 1) :
    ∃ fm2, P16.extractFrontmatter (fm.marshalLines ++ rest) = .ok (some fm2, rest) ∧
      ∀ k, lookupKV fm2.data k = lookupKV fm.data k := by
  have hperm := sortEntries_perm fm.data
  have hndes : nodupKeys (P16.sortEntries fm.data) :=
    (List.Perm.nodup_iff (List.Perm.map Prod.fst hperm)).mpr hnd
  have hlook : ∀ k, lookupKV (P16.entriesToMap (P16.sortEntries fm.data)) k
      = lookupKV fm.data k := by
    intro k
    rw [lookupKV_entriesToMap _ k hndes]
    exact lookupKV_perm _ _ hperm hndes k
  rcases hwf with ⟨htype, hwf⟩ | ⟨htype, hwf⟩
  · have hwfes : ∀ e ∈ P16.sortEntries fm.data, entryWfY e :=
      fun e he => hwf e (hperm.mem_iff.mp he)
    have hml : fm.marshalLines
        = ["---"] ++ renderYamlLines (P16.sortEntries fm.data) ++ ["---"] := by
      simp only [P16.FrontmatterData.marshalLines, htype]
    have hdoc : fm.marshalLines ++ rest
        = "---" :: (renderYamlLines (P16.sortEntries fm.data) ++ "---" :: rest) := by
      rw [hml]
      simp
    have hnodelim : ∀ l ∈ renderYamlLines (P16.sortEntries fm.data),
        isDelimLine "---" l = false := by
      intro l hl
      unfold renderYamlLines at hl
      rw [List.mem_map] at hl
      obtain ⟨e, _, hle⟩ := hl
      rw [← hle]
      exact renderYaml_not_delim e.1 e.2
    refine ⟨{ type := .fmYAML, raw := renderYamlLines (P16.sortEntries fm.data),
              data := P16.entriesToMap (P16.sortEntries fm.data) }, ?_, hlook⟩
    rw [hdoc]
    exact extract_block_yaml _ rest _ hnodelim
      (parseYamlLines_render _ hwfes) hrest hhead
  · have hwfes : ∀ e ∈ P16.sortEntries fm.data, entryWfT e :=
      fun e he => hwf e (hperm.mem_iff.mp he)
    have hml : fm.marshalLines
        = ["+++"] ++ P16.renderTomlLines (P16.sortEntries fm.data) ++ ["+++"] := by
      simp only [P16.FrontmatterData.marshalLines, htype]
    have hdoc : fm.marshalLines ++ rest
        = "+++" :: (P16.renderTomlLines (P16.sortEntries fm.data) ++ "+++" :: rest) := by
      rw [hml]
      simp
    have hnodelim : ∀ l ∈ P16.renderTomlLines (P16.sortEntries fm.data),
        isDelimLine "+++" l = false := by
      intro l hl
      unfold P16.renderTomlLines at hl
      rw [List.mem_map] at hl
      obtain ⟨e, hemem, hle⟩ := hl
      obtain ⟨_, _, _, s, hes, _⟩ := hwfes e hemem
      rw [← hle, hes]
      exact renderToml_not_delim e.1 s
    refine ⟨{ type := .fmTOML, raw := P16.renderTomlLines (P16.sortEntries fm.data),
              data := P16.entriesToMap (P16.sortEntries fm.data) }, ?_, hlook⟩
    rw [hdoc]
    exact extract_block_toml _ rest _ hnodelim
      (parseTomlLines_render _ hwfes) hrest hhead

/-! ## Round-trip development: headings, removal and the parse equation -/

theorem headingOfLine_hash_space (t : String) :
    P16.headingOfLine ("# " ++ t) = some { level := 1, text := trimS t } := by
  have hdata : ("# " ++ t).data = '#' :: ' ' :: t.data := by
    rw [String.data_append]
    rfl
  unfold P16.headingOfLine
  rw [hdata]
  have htw : ('#' :: ' ' :: t.data).takeWhile (fun x => decide (x = '#')) = ['#'] := by
    rw [List.takeWhile_cons, if_pos (by decide), List.takeWhile_cons, if_neg (by decide)]
  rw [htw]
  dsimp only
  rw [if_pos (by decide)]
  have hdrop : ('#' :: ' ' :: t.data).drop (['#'].length) = ' ' :: t.data := rfl
  rw [hdrop]
  dsimp only
  rw [if_pos (by decide)]
  rfl

theorem isH1Start_hash_space (t : String) : P16.isH1Start ("# " ++ t) = true := by
  unfold P16.isH1Start
  have hdata : ("# " ++ t).data = '#' :: ' ' :: t.data := by
    rw [String.data_append]
    rfl
  rw [hdata]
  rfl

theorem isH1Start_heading (l : String) (h : P16.isH1Start l = true) :
    ∃ hd, P16.headingOfLine l = some hd ∧ hd.level = 1 := by
  unfold P16.isH1Start at h
  split at h
  · rename_i c tail heq
    unfold P16.headingOfLine
    rw [heq]
    have hcn : ¬(decide (c = '#') = true) := by
      intro hh
      have hc := of_decide_eq_true hh
      rw [hc] at h
      exact absurd h (by decide)
    have htw : ('#' :: c :: tail).takeWhile (fun x => decide (x = '#')) = ['#'] := by
      rw [List.takeWhile_cons, if_pos (by decide), List.takeWhile_cons, if_neg hcn]
    rw [htw]
    dsimp only
    rw [if_pos (by decide)]
    have hdrop : ('#' :: c :: tail).drop (['#'].length) = c :: tail := rfl
    rw [hdrop]
    dsimp only
    rw [if_pos h]
    exact ⟨_, rfl, rfl⟩
  · exact Bool.noConfusion h

theorem extractHeadings_cons_some (l : String) (rest : List String)
    (hd : P16.HeadingData) (h : P16.headingOfLine l = some hd) :
    P16.extractHeadings (l :: rest) = hd :: P16.extractHeadings rest := by
  unfold P16.extractHeadings
  rw [List.filterMap_cons, h]

theorem removeFirstH1_go_h1 (n : Nat) (l : String) (body : List String)
    (hl : P16.isH1Start l = true) (hn : 0 < n) :
    P16.removeFirstH1.go n (l :: body) 0 = (body, true) := by
  have hc : (decide ((0 : Nat) < n) && P16.isH1Start l) = true := by
    rw [Bool.and_eq_true]
    exact ⟨decide_eq_true hn, hl⟩
  unfold P16.removeFirstH1.go
  rw [if_pos hc]

theorem removeFirstH1_cons_h1 (l : String) (body : List String)
    (hl : P16.isH1Start l = true) (hb : body ≠ []) :
    P16.removeFirstH1 (l :: body) 5 = (body, true) := by
  unfold P16.removeFirstH1
  rw [removeFirstH1_go_h1 5 l body hl (by omega)]
  dsimp only
  rw [if_neg (show ¬body.isEmpty = true from fun hh => hb (List.isEmpty_iff.mp hh))]

theorem removeFirstH1_go_no_removal (n : Nat) :
    ∀ (lines : List String) (i : Nat),
      (P16.removeFirstH1.go n lines i).2 = false →
      (P16.removeFirstH1.go n lines i).1 = lines := by
  intro lines
  induction lines with
  | nil => intro i _; rfl
  | cons l rest ih =>
    intro i h
    unfold P16.removeFirstH1.go at h ⊢
    by_cases hc : (decide (i < n) && P16.isH1Start l) = true
    · rw [if_pos hc] at h
      simp at h
    · rw [if_neg hc] at h ⊢
      dsimp only at h ⊢
      rw [ih (i + 1) h]

theorem removeFirstH1_go_mem (n : Nat) :
    ∀ (lines : List String) (i : Nat),
      (P16.removeFirstH1.go n lines i).2 = true →
      ∃ l ∈ lines, P16.isH1Start l = true := by
  intro lines
  induction lines with
  | nil =>
    intro i h
    simp [P16.removeFirstH1.go] at h
  | cons l rest ih =>
    intro i h
    unfold P16.removeFirstH1.go at h
    by_cases hc : (decide (i < n) && P16.isH1Start l) = true
    · refine ⟨l, List.mem_cons_self _ _, ?_⟩
      rw [Bool.and_eq_true] at hc
      exact hc.2
    · rw [if_neg hc] at h
      dsimp only at h
      obtain ⟨l', hl', hh⟩ := ih (i + 1) h
      exact ⟨l', List.mem_cons_of_mem _ hl', hh⟩

theorem removeFirstH1_ne_nil (lines : List String) (n : Nat) :
    (P16.removeFirstH1 lines n).1 ≠ [] := by
  unfold P16.removeFirstH1
  dsimp only
  split
  · simp
  · rename_i hc
    intro hh
    apply hc
    rw [hh]
    rfl

theorem removeFirstH1_no_removal (lines : List String) (n : Nat) (hne : lines ≠ [])
    (h : (P16.removeFirstH1 lines n).2 = false) :
    (P16.removeFirstH1 lines n).1 = lines := by
  unfold P16.removeFirstH1 at h ⊢
  dsimp only at h ⊢
  rw [removeFirstH1_go_no_removal n lines 0 h]
  rw [if_neg (show ¬lines.isEmpty = true from fun hh => hne (List.isEmpty_iff.mp hh))]

theorem find_h1_of_removal (bodyC : List String) (n : Nat)
    (h : (P16.removeFirstH1 bodyC n).2 = true) :
    ((P16.extractHeadings bodyC).find? (fun hd => decide (hd.level = 1))).isSome
      = true := by
  have h2 : (P16.removeFirstH1.go n bodyC 0).2 = true := h
  obtain ⟨l, hmem, hh1⟩ := removeFirstH1_go_mem n bodyC 0 h2
  obtain ⟨hd, hhd, hlev⟩ := isH1Start_heading l hh1
  have hmem2 : hd ∈ P16.extractHeadings bodyC :=
    List.mem_filterMap.mpr ⟨l, hmem, hhd⟩
  rw [List.find?_isSome]
  exact ⟨hd, hmem2, decide_eq_true hlev⟩

theorem parse_ok_of_extract (lines : List String)
    (fmOpt : Option P16.FrontmatterData) (bodyC : List String)
    (hex : P16.extractFrontmatter lines = .ok (fmOpt, bodyC)) :
    P16.parse lines = .ok
      { frontmatter := fmOpt,
        body := (P16.removeFirstH1 bodyC 5).1,
        hashtags := P16.extractHashtags (P16.removeFirstH1 bodyC 5).1,
        headings := P16.extractHeadings bodyC,
        title :=
          if (if (P16.removeFirstH1 bodyC 5).2 then
                match (P16.extractHeadings bodyC).find?
                    (fun h => decide (h.level = 1)) with
                | some h => h.text
                | Option.none => ""
              else "") = "" then
            P16.fmTitleFallback fmOpt
          else
            if (P16.removeFirstH1 bodyC 5).2 then
              match (P16.extractHeadings bodyC).find?
                  (fun h => decide (h.level = 1)) with
              | some h => h.text
              | Option.none => ""
            else "" } := by
  simp only [P16.parse, hex, bind, Except.bind, pure, Except.pure]
  rfl

theorem fmTitleFallback_congr (fm fm2 : P16.FrontmatterData)
    (h : lookupKV fm2.data "title" = lookupKV fm.data "title") :
    P16.fmTitleFallback (some fm2) = P16.fmTitleFallback (some fm) := by
  unfold P16.fmTitleFallback
  dsimp only
  rw [h]

theorem hashline_head_ok (t : String) (body : List String) :
    ∀ b, (("# " ++ t) :: body).head? = some b → isWsOnly b = true →
      (("# " ++ t) :: body).length = 1 := by
  intro b hb hws
  rw [List.head?_cons] at hb
  cases hb
  exfalso
  have hfalse : isWsOnly ("# " ++ t) = false := by
    apply isWsOnly_false_of_mem _ '#'
    · rw [String.data_append]
      exact List.mem_append.mpr (Or.inl (by decide))
    · decide
  rw [hfalse] at hws
  exact Bool.noConfusion hws

/-- C2 (amended) — the round trip `Parse ∘ ToMarkdown ∘ Parse` preserves the
title, the body, the hashtag list and every frontmatter key lookup for every
document with frontmatter that parses successfully, provided (i) when the
parsed title is empty, any first level-1 heading of the body has empty text
(otherwise `ToMarkdown` emits no `# Title` line but the reparse still finds
the later heading and adopts its text), and (ii) the title carries no
surrounding whitespace (a whitespace-padded frontmatter title is re-emitted
as a heading, whose reparse trims it). -/
theorem c2_roundtrip (lines : List String) (pc : P16.ParsedContent)
    (fm : P16.FrontmatterData)
    (hp : P16.parse lines = .ok pc)
    (hfm : pc.frontmatter = some fm)
    (hh1 : pc.title = "" → ∀ hd, pc.headings.find? (fun x => x.level = 1) = some hd →
      hd.text = "")
    (htr : trimS pc.title = pc.title) :
    ∃ pc2, P16.parse pc.toMarkdownLines = .ok pc2 ∧
      pc2.title = pc.title ∧ pc2.body = pc.body ∧ pc2.hashtags = pc.hashtags ∧
      ∃ fm2, pc2.frontmatter = some fm2 ∧
        ∀ k, lookupKV fm2.data k = lookupKV fm.data k := by
  cases hex : P16.extractFrontmatter lines with
  | error e =>
    simp only [P16.parse, hex, bind, Except.bind] at hp
    exact Except.noConfusion hp
  | ok pr =>
    obtain ⟨fmOpt, bodyC⟩ := pr
    have hpeq := parse_ok_of_extract lines fmOpt bodyC hex
    rw [hpeq] at hp
    have hrec := (Except.ok.inj hp).symm
    have hfront : fmOpt = some fm := by rw [← hfm, hrec]
    subst hfront
    obtain ⟨hbne, hbinv, hdataor⟩ := extract_inv lines fm bodyC hex
    have hwf : (fm.type = P16.FrontmatterType.fmYAML ∧ ∀ e ∈ fm.data, entryWfY e) ∨
        (fm.type = P16.FrontmatterType.fmTOML ∧ ∀ e ∈ fm.data, entryWfT e) := by
      rcases hdataor with ⟨ht, es, hes, hd⟩ | ⟨ht, es, hes, hd⟩
      · exact Or.inl ⟨ht, fun e he => parseYamlLines_wf fm.raw es hes e
          (mem_entriesToMap es e (hd ▸ he))⟩
      · exact Or.inr ⟨ht, fun e he => parseTomlLines_wf fm.raw es hes e
          (mem_entriesToMap es e (hd ▸ he))⟩
    have hnd : nodupKeys fm.data := by
      rcases hdataor with ⟨_, es, _, hd⟩ | ⟨_, es, _, hd⟩ <;> rw [hd] <;>
        exact nodupKeys_entriesToMap es
    have hheads : pc.headings = P16.extractHeadings bodyC := by rw [hrec]
    have hbody : pc.body = (P16.removeFirstH1 bodyC 5).1 := by rw [hrec]
    have hhash : pc.hashtags = P16.extractHashtags (P16.removeFirstH1 bodyC 5).1 := by
      rw [hrec]
    have hpcne : pc.body ≠ [] := by
      rw [hbody]
      exact removeFirstH1_ne_nil bodyC 5
    have htitle : pc.title =
        (if (if (P16.removeFirstH1 bodyC 5).2 then
              match (P16.extractHeadings bodyC).find?
                  (fun h => decide (h.level = 1)) with
              | some h => h.text
              | Option.none => ""
            else "") = "" then
          P16.fmTitleFallback (some fm)
        else
          if (P16.removeFirstH1 bodyC 5).2 then
            match (P16.extractHeadings bodyC).find?
                (fun h => decide (h.level = 1)) with
            | some h => h.text
            | Option.none => ""
          else "") := by rw [hrec]
    by_cases hT : pc.title = ""
    case neg =>
      have hdoc : pc.toMarkdownLines
          = fm.marshalLines ++ (("# " ++ pc.title) :: pc.body) := by
        unfold P16.ParsedContent.toMarkdownLines
        rw [hfm]
        dsimp only
        rw [if_pos hT]
        simp
      obtain ⟨fm2, hex2, hlook2⟩ := extract_reconstruct fm
        (("# " ++ pc.title) :: pc.body) hwf hnd (by simp)
        (hashline_head_ok pc.title pc.body)
      rw [← hdoc] at hex2
      have hp2 := parse_ok_of_extract pc.toMarkdownLines (some fm2)
        (("# " ++ pc.title) :: pc.body) hex2
      have hrm2 : P16.removeFirstH1 (("# " ++ pc.title) :: pc.body) 5
          = (pc.body, true) :=
        removeFirstH1_cons_h1 _ _ (isH1Start_hash_space pc.title) hpcne
      have hhd2 : P16.headingOfLine ("# " ++ pc.title)
          = some { level := 1, text := pc.title } := by
        rw [headingOfLine_hash_space, htr]
      have hheads2 := extractHeadings_cons_some ("# " ++ pc.title) pc.body _ hhd2
      have hfind2 : (P16.extractHeadings (("# " ++ pc.title) :: pc.body)).find?
          (fun h => decide (h.level = 1)) = some { level := 1, text := pc.title } := by
        rw [hheads2]
        exact List.find?_cons_of_pos _ (by rfl)
      refine ⟨_, hp2, ?_, ?_, ?_, fm2, rfl, hlook2⟩
      · dsimp only
        rw [hrm2, hfind2]
        simp [hT]
      · dsimp only
        rw [hrm2]
      · dsimp only
        rw [hrm2]
        dsimp only
        rw [hhash, hbody]
    case pos =>
      cases hfind : (P16.extractHeadings bodyC).find?
          (fun h => decide (h.level = 1)) with
      | some hd0 =>
        have hhd0 : hd0.text = "" := by
          apply hh1 hT hd0
          rw [hheads]
          exact hfind
        have hM : P16.fmTitleFallback (some fm) = "" := by
          have hT2 := hT
          rw [htitle, hfind] at hT2
          dsimp only at hT2
          have ht1 : (if (P16.removeFirstH1 bodyC 5).2 = true then hd0.text else "")
              = "" := by
            cases hrm3 : (P16.removeFirstH1 bodyC 5).2
            · simp
            · simp [hhd0]
          rw [ht1] at hT2
          simpa using hT2
        have hdoc : pc.toMarkdownLines
            = fm.marshalLines ++ (("# " ++ hd0.text) :: pc.body) := by
          unfold P16.ParsedContent.toMarkdownLines
          rw [hfm]
          dsimp only
          rw [if_neg (show ¬pc.title ≠ "" by rw [hT]; simp)]
          rw [hheads, hfind]
          dsimp only
          simp
        obtain ⟨fm2, hex2, hlook2⟩ := extract_reconstruct fm
          (("# " ++ hd0.text) :: pc.body) hwf hnd (by simp)
          (hashline_head_ok hd0.text pc.body)
        rw [← hdoc] at hex2
        have hp2 := parse_ok_of_extract pc.toMarkdownLines (some fm2)
          (("# " ++ hd0.text) :: pc.body) hex2
        have hrm2 : P16.removeFirstH1 (("# " ++ hd0.text) :: pc.body) 5
            = (pc.body, true) :=
          removeFirstH1_cons_h1 _ _ (isH1Start_hash_space hd0.text) hpcne
        have hhd2 : P16.headingOfLine ("# " ++ hd0.text)
            = some { level := 1, text := "" } := by
          rw [headingOfLine_hash_space, hhd0]
          decide
        have hheads2 := extractHeadings_cons_some ("# " ++ hd0.text) pc.body _ hhd2
        have hfind2 : (P16.extractHeadings (("# " ++ hd0.text) :: pc.body)).find?
            (fun h => decide (h.level = 1)) = some { level := 1, text := "" } := by
          rw [hheads2]
          exact List.find?_cons_of_pos _ (by rfl)
        refine ⟨_, hp2, ?_, ?_, ?_, fm2, rfl, hlook2⟩
        · dsimp only
          rw [hrm2, hfind2]
          simp [fmTitleFallback_congr fm fm2 (hlook2 "title"), hM, hT]
        · dsimp only
          rw [hrm2]
        · dsimp only
          rw [hrm2]
          dsimp only
          rw [hhash, hbody]
      | none =>
        have hrm : (P16.removeFirstH1 bodyC 5).2 = false := by
          cases hrmc : (P16.removeFirstH1 bodyC 5).2
          · rfl
          · exfalso
            have hsome := find_h1_of_removal bodyC 5 hrmc
            rw [hfind] at hsome
            exact Bool.noConfusion hsome
        have hbc : pc.body = bodyC := by
          rw [hbody]
          exact removeFirstH1_no_removal bodyC 5 hbne hrm
        have hM : P16.fmTitleFallback (some fm) = "" := by
          have hT2 := hT
          rw [htitle, hrm] at hT2
          simpa using hT2
        have hdoc : pc.toMarkdownLines = fm.marshalLines ++ pc.body := by
          unfold P16.ParsedContent.toMarkdownLines
          rw [hfm]
          dsimp only
          rw [if_neg (show ¬pc.title ≠ "" by rw [hT]; simp)]
          rw [hheads, hfind]
          dsimp only
          simp
        have hhead2 : ∀ b, pc.body.head? = some b → isWsOnly b = true →
            pc.body.length = 1 := by
          intro b hb hws
          rw [hbc] at hb ⊢
          exact hbinv b hb hws
        obtain ⟨fm2, hex2, hlook2⟩ := extract_reconstruct fm pc.body hwf hnd
          hpcne hhead2
        rw [← hdoc] at hex2
        have hp2 := parse_ok_of_extract pc.toMarkdownLines (some fm2) pc.body hex2
        have hrm2 : (P16.removeFirstH1 pc.body 5).2 = false := by
          rw [hbc]
          exact hrm
        have hrm2b : (P16.removeFirstH1 pc.body 5).1 = pc.body := by
          rw [hbc]
          exact removeFirstH1_no_removal bodyC 5 hbne hrm
        refine ⟨_, hp2, ?_, ?_, ?_, fm2, rfl, hlook2⟩
        · dsimp only
          rw [hrm2]
          simp [fmTitleFallback_congr fm fm2 (hlook2 "title"), hM, hT]
        · dsimp only
          rw [hrm2b]
        · dsimp only
          rw [hrm2b]
          rw [hhash, hbody]

/-- C2 — counterexample.  The unrestricted round-trip claim fails in two
ways.  (i) A document whose only level-1 heading sits beyond the five-line
removal window parses with an empty title, but `ToMarkdown` then emits that
recorded heading as a fresh first line, so the reparse adopts its text:
title `""` becomes `"Late"`.  (ii) A whitespace-padded frontmatter title
`" FM"` is emitted as the heading line `"#  FM"`, whose reparse trims it to
`"FM"`. -/
theorem c2_roundtrip_counterexample :
    ((P16.parse ["---", "k: v", "---", "a", "b", "c", "d", "e", "# Late"]).map
        P16.ParsedContent.title = .ok "" ∧
      ((P16.parse ["---", "k: v", "---", "a", "b", "c", "d", "e", "# Late"]).bind
          (fun pc => P16.parse pc.toMarkdownLines)).map
        P16.ParsedContent.title = .ok "Late") ∧
    ((P16.parse ["---", "title: \" FM\"", "---", "x"]).map
        P16.ParsedContent.title = .ok " FM" ∧
      ((P16.parse ["---", "title: \" FM\"", "---", "x"]).bind
          (fun pc => P16.parse pc.toMarkdownLines)).map
        P16.ParsedContent.title = .ok "FM") :=
  ⟨⟨rfl, rfl⟩, ⟨rfl, rfl⟩⟩

/-- C2 — witness: the amended round-trip theorem applied to the concrete
document `rtDoc` (string, integer and boolean frontmatter values, a heading
title and a body hashtag). -/
theorem c2_roundtrip_witness :
    P16.parse P16.rtDoc = .ok P16.rtPC ∧
    ∃ pc2, P16.parse P16.rtPC.toMarkdownLines = .ok pc2 ∧
      pc2.title = P16.rtPC.title ∧ pc2.body = P16.rtPC.body ∧
      pc2.hashtags = P16.rtPC.hashtags ∧
      ∃ fm2, pc2.frontmatter = some fm2 ∧
        ∀ k, lookupKV fm2.data k = lookupKV P16.rtFM.data k :=
  ⟨rfl,
    c2_roundtrip P16.rtDoc P16.rtPC P16.rtFM rfl rfl
      (fun h => absurd h (by decide)) (by decide)⟩

end Blogdkr

